import Mathlib

/-!
Shallow embedding of the EmbedNexus runtime/ingestion core, used to check the
natural-language specification against the code.

Conventions:
* Rust `u64` counters are embedded as `Nat` (the claims never exercise wrap);
  where a narrowing cast (`as u16`, `as u32`) appears in the source the
  truncation is made explicit with `% 2^w`.
* Wall-clock instants (`SystemTime`) are embedded as `Nat` milliseconds and
  passed explicitly to each operation that reads the clock.
* Rust strings are embedded as `String` except where the code manipulates the
  underlying bytes, in which case byte lists (`List Nat`) are used.
* Fallible Rust functions returning `Result` are embedded as `Except`.
-/

instance {ε α : Type _} [DecidableEq ε] [DecidableEq α] : DecidableEq (Except ε α) := fun x y =>
  match x, y with
  | .ok a, .ok b =>
    if h : a = b then isTrue (by rw [h]) else isFalse (by intro hh; cases hh; exact h rfl)
  | .ok _, .error _ => isFalse (by intro h; cases h)
  | .error _, .ok _ => isFalse (by intro h; cases h)
  | .error a, .error b =>
    if h : a = b then isTrue (by rw [h]) else isFalse (by intro hh; cases hh; exact h rfl)

namespace StorageLedger

/-- `ReplayEntry` from `storage-ledger/src/lib.rs`. -/
structure ReplayEntry where
  sequence : Nat
  repoId : String
  delayedMs : Nat
  payloadChecksumBefore : String
  payloadChecksumAfter : String
  status : String
deriving Repr, DecidableEq

/-- `ReplayEnvelope` (private): a `ReplayEntry` plus its insertion instant. -/
structure ReplayEnvelope where
  entry : ReplayEntry
  insertedAt : Nat
deriving Repr, DecidableEq

/-- `ReadyReplayEntry`: what `drain_ready` hands back to callers. -/
structure ReadyReplayEntry where
  entry : ReplayEntry
  insertedAt : Nat
deriving Repr, DecidableEq

/-- `ReplayError` from `storage-ledger/src/lib.rs`. -/
inductive ReplayError where
  | Misconfigured (msg : String)
deriving Repr, DecidableEq

/-- `OfflineReplayBuffer`: the lock-guarded queue state plus configuration. -/
structure OfflineReplayBuffer where
  maxEntries : Nat
  maxAge : Nat
  queue : List ReplayEnvelope
  maxSequenceSeen : Option Nat
deriving Repr, DecidableEq

namespace OfflineReplayBuffer

/-- `OfflineReplayBuffer::new`. -/
def new (maxEntries maxAge : Nat) : OfflineReplayBuffer :=
  { maxEntries, maxAge, queue := [], maxSequenceSeen := none }

/-- `purge_locked`: `retain` keeps an envelope when `now.duration_since(inserted_at)`
errs (clock skew: `insertedAt > now`) or yields an age `≤ max_age`. -/
def purgeLocked (maxAge now : Nat) (q : List ReplayEnvelope) : List ReplayEnvelope :=
  q.filter (fun env => if env.insertedAt ≤ now then decide (now - env.insertedAt ≤ maxAge) else true)

/-- The `while guard.len() > max_entries { guard.pop_front() }` loop. -/
def evictFront (maxEntries : Nat) (q : List ReplayEnvelope) : List ReplayEnvelope :=
  q.drop (q.length - maxEntries)

/-- `push_envelope`: capacity-0 guard, `max_sequence_seen` update, append,
age purge, then FIFO eviction. -/
def pushEnvelope (b : OfflineReplayBuffer) (entry : ReplayEntry) (insertedAt now : Nat) :
    Except ReplayError OfflineReplayBuffer :=
  if b.maxEntries = 0 then
    .error (.Misconfigured "max_entries cannot be zero")
  else
    let maxSeen : Option Nat :=
      match b.maxSequenceSeen with
      | some existing => if existing ≥ entry.sequence then some existing else some entry.sequence
      | none => some entry.sequence
    let q := b.queue ++ [⟨entry, insertedAt⟩]
    let q := purgeLocked b.maxAge now q
    let q := evictFront b.maxEntries q
    .ok { b with queue := q, maxSequenceSeen := maxSeen }

/-- `push`: stamps `inserted_at = now`. -/
def push (b : OfflineReplayBuffer) (entry : ReplayEntry) (now : Nat) :
    Except ReplayError OfflineReplayBuffer :=
  b.pushEnvelope entry now now

/-- `requeue`: re-inserts a drained envelope, reusing its original `inserted_at`. -/
def requeue (b : OfflineReplayBuffer) (ready : ReadyReplayEntry) (now : Nat) :
    Except ReplayError OfflineReplayBuffer :=
  b.pushEnvelope ready.entry ready.insertedAt now

/-- `drain_ready`: purge expired entries, then drain everything in order. -/
def drainReady (b : OfflineReplayBuffer) (now : Nat) :
    List ReadyReplayEntry × OfflineReplayBuffer :=
  let q := purgeLocked b.maxAge now b.queue
  (q.map (fun env => ⟨env.entry, env.insertedAt⟩), { b with queue := [] })

/-- `is_empty`. -/
def isEmpty (b : OfflineReplayBuffer) : Bool := b.queue.isEmpty

/-- `max_sequence`. -/
def maxSequence (b : OfflineReplayBuffer) : Option Nat := b.maxSequenceSeen

end OfflineReplayBuffer

end StorageLedger

namespace IngestionManifest

open StorageLedger

/-- `ManifestEmitterConfig` from `ingestion-manifest/src/lib.rs`
(`retention_max_age` kept in milliseconds). -/
structure ManifestEmitterConfig where
  sequenceStart : Nat
  encryptionKey : String
  retentionMaxEntries : Nat
  retentionMaxAgeMs : Nat
deriving Repr, DecidableEq

/-- `ManifestDiff` (`applied_at` in epoch milliseconds). -/
structure ManifestDiff where
  repoId : String
  appliedAtMs : Nat
  addedChunks : List String
  removedChunks : List String
  checksumBefore : String
  checksumAfter : String
deriving Repr, DecidableEq

/-- `ManifestError`. -/
inductive ManifestError where
  | QueueOffline (msg : String)
  | Buffer (msg : String)
deriving Repr, DecidableEq

/-- `ManifestEmitter` state (the queue handle lives outside the state; send
outcomes are passed in explicitly, see `flushOffline`). -/
structure ManifestEmitter where
  config : ManifestEmitterConfig
  buffer : OfflineReplayBuffer
  nextSequence : Nat
deriving Repr, DecidableEq

namespace ManifestEmitter

/-- `ManifestEmitter::new`: `next_sequence = buffer.max_sequence().map(|s| s+1).unwrap_or(config.sequence_start)`. -/
def new (config : ManifestEmitterConfig) (buffer : OfflineReplayBuffer) : ManifestEmitter :=
  { config, buffer,
    nextSequence :=
      match buffer.maxSequence with
      | some seq => seq + 1
      | none => config.sequenceStart }

/-- `build_entry`: note the source fills `delayed_ms` from
`config.retention_max_age`, and ignores `diff.applied_at`. -/
def buildEntry (e : ManifestEmitter) (diff : ManifestDiff) (sequence : Nat) : ReplayEntry :=
  { sequence
    repoId := diff.repoId
    delayedMs := e.config.retentionMaxAgeMs
    payloadChecksumBefore := diff.checksumBefore
    payloadChecksumAfter := diff.checksumAfter
    status := "pending" }

/-- Modelled from the spec: the spec (and the crate's own tests) require
`delayed_ms = max(0, now − diff.applied_at)` in milliseconds, clamping
future-dated diffs to zero. Natural subtraction realizes the clamp. -/
def specDelayedMs (nowMs appliedAtMs : Nat) : Nat := nowMs - appliedAtMs

/-- The outcome of one `ManifestQueue::send` call: `none` is `Ok(())`,
`some msg` is `Err` with the given display text. -/
abbrev SendOutcome := Option String

/-- Result of a flush: final emitter state, the ordered list of entries the
queue accepted, and the returned `Result`. -/
structure FlushState where
  emitter : ManifestEmitter
  history : List ReplayEntry
  result : Except ManifestError Unit
deriving Repr, DecidableEq

/-- The requeue loop run after a mid-flush failure: requeue every remaining
drained envelope in order with status `"buffered"`, stopping on a buffer error. -/
def requeueRest (now : Nat) (buffer : OfflineReplayBuffer) :
    List ReadyReplayEntry → Except ManifestError OfflineReplayBuffer
  | [] => .ok buffer
  | remaining :: rest =>
    match buffer.requeue ⟨{ remaining.entry with status := "buffered" }, remaining.insertedAt⟩ now with
    | .error e => .error (.Buffer (match e with | .Misconfigured m => "offline replay buffer misconfigured: " ++ m))
    | .ok buffer' => requeueRest now buffer' rest

/-- The body of `flush_offline`'s `while let Some(ready) = drained.pop_front()`
loop. `send` gives the outcome of the i-th queue send of this flush. -/
def flushGo (send : Nat → SendOutcome) (now : Nat) :
    List ReadyReplayEntry → Nat → ManifestEmitter → List ReplayEntry → FlushState
  | [], _, e, hist => ⟨e, hist, .ok ()⟩
  | ready :: drained, idx, e, hist =>
    let sequence := ready.entry.sequence
    let sent := { ready.entry with status := "emitted" }
    match send idx with
    | none =>
      flushGo send now drained (idx + 1)
        { e with nextSequence := max e.nextSequence (sequence + 1) } (hist ++ [sent])
    | some errMsg =>
      match e.buffer.requeue ⟨{ ready.entry with status := "buffered" }, ready.insertedAt⟩ now with
      | .error err =>
        ⟨e, hist, .error (.Buffer (match err with | .Misconfigured m => "offline replay buffer misconfigured: " ++ m))⟩
      | .ok buffer' =>
        match requeueRest now buffer' drained with
        | .error msg => ⟨{ e with buffer := buffer' }, hist, .error msg⟩
        | .ok buffer'' => ⟨{ e with buffer := buffer'' }, hist, .error (.QueueOffline errMsg)⟩

/-- `flush_offline`: drain all ready envelopes, then run the send loop. -/
def flushOffline (send : Nat → SendOutcome) (e : ManifestEmitter) (now : Nat) : FlushState :=
  let (drained, buffer) := e.buffer.drainReady now
  flushGo send now drained 0 { e with buffer } []

/-- `emit`: build the entry, try the queue; on failure buffer it with status
`"buffered"`. Either way `next_sequence` advances by one. -/
def emit (send : SendOutcome) (e : ManifestEmitter) (diff : ManifestDiff) (now : Nat) :
    (Except ManifestError Unit × ManifestEmitter × List ReplayEntry) :=
  let sequence := e.nextSequence
  let entry := e.buildEntry diff sequence
  let sent := { entry with status := "emitted" }
  match send with
  | none => (.ok (), { e with nextSequence := sequence + 1 }, [sent])
  | some errMsg =>
    match e.buffer.push { entry with status := "buffered" } now with
    | .error err =>
      (.error (.Buffer (match err with | .Misconfigured m => "offline replay buffer misconfigured: " ++ m)), e, [])
    | .ok buffer' =>
      (.error (.QueueOffline errMsg), { e with buffer := buffer', nextSequence := sequence + 1 }, [])

end ManifestEmitter

end IngestionManifest

/-- Byte strings (each element is meant to lie in `0..255`). -/
abbrev Bytes := List Nat

/-- Big-endian bytes of `n as u16` (the cast truncates mod 2^16). -/
def u16be (n : Nat) : Bytes := [n % 65536 / 256, n % 256]

/-- Big-endian bytes of `n as u32` (the cast truncates mod 2^32). -/
def u32be (n : Nat) : Bytes := [n % 2 ^ 32 / 2 ^ 24, n % 2 ^ 24 / 2 ^ 16, n % 2 ^ 16 / 2 ^ 8, n % 2 ^ 8]

/-- `u32::from_be_bytes` over the first four bytes. -/
def fromBe32 (l : Bytes) : Nat :=
  l.getD 0 0 * 2 ^ 24 + l.getD 1 0 * 2 ^ 16 + l.getD 2 0 * 2 ^ 8 + l.getD 3 0

/-- `u16::from_be_bytes` over the first two bytes. -/
def fromBe16 (l : Bytes) : Nat := l.getD 0 0 * 2 ^ 8 + l.getD 1 0

/-- UTF-8 continuation byte (`0x80..=0xBF`). -/
def utf8Cont (b : Nat) : Bool := 0x80 ≤ b && b ≤ 0xBF

/-- UTF-8 validity of a byte string, as checked by `std::str::from_utf8`
(rejecting overlong encodings, surrogates and values above U+10FFFF). -/
def validUtf8 : Bytes → Bool
  | [] => true
  | b :: rest =>
    if b ≤ 0x7F then validUtf8 rest
    else if 0xC2 ≤ b && b ≤ 0xDF then
      match rest with
      | c1 :: r => utf8Cont c1 && validUtf8 r
      | [] => false
    else if b = 0xE0 then
      match rest with
      | c1 :: c2 :: r => (0xA0 ≤ c1 && c1 ≤ 0xBF) && utf8Cont c2 && validUtf8 r
      | _ => false
    else if (0xE1 ≤ b && b ≤ 0xEC) || b = 0xEE || b = 0xEF then
      match rest with
      | c1 :: c2 :: r => utf8Cont c1 && utf8Cont c2 && validUtf8 r
      | _ => false
    else if b = 0xED then
      match rest with
      | c1 :: c2 :: r => (0x80 ≤ c1 && c1 ≤ 0x9F) && utf8Cont c2 && validUtf8 r
      | _ => false
    else if b = 0xF0 then
      match rest with
      | c1 :: c2 :: c3 :: r => (0x90 ≤ c1 && c1 ≤ 0xBF) && utf8Cont c2 && utf8Cont c3 && validUtf8 r
      | _ => false
    else if 0xF1 ≤ b && b ≤ 0xF3 then
      match rest with
      | c1 :: c2 :: c3 :: r => utf8Cont c1 && utf8Cont c2 && utf8Cont c3 && validUtf8 r
      | _ => false
    else if b = 0xF4 then
      match rest with
      | c1 :: c2 :: c3 :: r => (0x80 ≤ c1 && c1 ≤ 0x8F) && utf8Cont c2 && utf8Cont c3 && validUtf8 r
      | _ => false
    else false

namespace StorageVector

/-!
Embedding of `storage-vector`. In this namespace Rust `&str`/`String` values
that flow into byte-level envelope or AAD encodings are represented by their
UTF-8 bytes (`Bytes`); a Rust `String` is always valid UTF-8.
The in-memory backend (`fs_root = None`) is modelled; the map is an
association list with first-match lookup, observationally equal to `HashMap`.
-/

/-- `StoreError` from `storage-vector/src/error.rs`. -/
inductive StoreError where
  | Io (msg : String)
  | Quota (msg : String)
  | Ledger (msg : String)
  | Integrity (msg : String)
  | Encryption (msg : String)
  | Key (msg : String)
  | Unsupported (msg : String)
deriving Repr, DecidableEq

/-- `ENVELOPE_MAGIC = b"EVG1"`. -/
def ENVELOPE_MAGIC : Bytes := [69, 86, 71, 49]

/-- `build_aad`: `u16 be repo_len | repo | u16 be key_id_len | key_id | u16 be rec_len | rec`. -/
def build_aad (repoId keyId recordKey : Bytes) : Bytes :=
  u16be repoId.length ++ repoId ++ u16be keyId.length ++ keyId ++
    u16be recordKey.length ++ recordKey

/-- `encode_envelope`: `magic | u16 be key_id_len | key_id | nonce | tag | ct`. -/
def encode_envelope (keyId nonce tag ct : Bytes) : Bytes :=
  ENVELOPE_MAGIC ++ u16be keyId.length ++ keyId ++ nonce ++ tag ++ ct

/-- `peek_key_id` from `storage-vector/src/encryption/mod.rs`. -/
def peek_key_id (bytes : Bytes) : Option Bytes :=
  if bytes.length < 6 then none
  else if bytes.take 4 ≠ ENVELOPE_MAGIC then none
  else
    let keyLen := bytes.getD 4 0 * 256 + bytes.getD 5 0
    if bytes.length < 6 + keyLen then none
    else
      let kid := (bytes.drop 6).take keyLen
      if validUtf8 kid then some kid else none

/-- `KeyHandle` (fields as constructed by `kms/mod.rs`). -/
structure KeyHandle where
  keyId : Bytes
  keyBytes : Bytes
deriving Repr, DecidableEq

/-- `KeyScope`. -/
structure KeyScope where
  repoId : Bytes
deriving Repr, DecidableEq

/-- `InMemoryKeyManager` state: current id and the id → secret map. -/
structure InMemoryKeyManager where
  currentId : Bytes
  keys : List (Bytes × Bytes)
deriving Repr, DecidableEq

/-- First-match association lookup (observationally `HashMap::get`). -/
def lookupKey (keys : List (Bytes × Bytes)) (kid : Bytes) : Option Bytes :=
  (keys.find? (fun p => p.1 = kid)).map (·.2)

namespace InMemoryKeyManager

/-- `InMemoryKeyManager::new_with_secret`. -/
def new_with_secret (id key : Bytes) : InMemoryKeyManager :=
  { currentId := id, keys := [(id, key)] }

/-- `set_current(id, key)`: register the key (a `HashMap::insert`, modelled by
prepending, which shadows any older binding under first-match lookup) and make
the id current. -/
def set_current (m : InMemoryKeyManager) (id key : Bytes) : InMemoryKeyManager :=
  { currentId := id, keys := (id, key) :: m.keys }

/-- `KeyManager::current` for the in-memory manager (the scope is unused). -/
def current (m : InMemoryKeyManager) (_scope : KeyScope) : Except String KeyHandle :=
  match lookupKey m.keys m.currentId with
  | some key => .ok ⟨m.currentId, key⟩
  | none => .error "missing key bytes for current id"

/-- `KeyManager::get` for the in-memory manager. -/
def get (m : InMemoryKeyManager) (keyId : Bytes) : Except String KeyHandle :=
  match lookupKey m.keys keyId with
  | some key => .ok ⟨keyId, key⟩
  | none => .error "unknown key id"

end InMemoryKeyManager

/-- The `dyn KeyManager` interface as used by the store. -/
structure KeyManagerI where
  currentFn : KeyScope → Except String KeyHandle
  getFn : Bytes → Except String KeyHandle

/-- View an in-memory key manager through the trait interface. -/
def InMemoryKeyManager.toI (m : InMemoryKeyManager) : KeyManagerI :=
  ⟨m.current, m.get⟩

/-- The `dyn Encrypter` interface (`seal` / `open`); AES-GCM itself is an
external crate, so implementations are left abstract. -/
structure Encrypter where
  sealFn : KeyHandle → Bytes → Bytes → Except String Bytes
  openFn : KeyHandle → Bytes → Bytes → Except String Bytes

/-- The replay entry built by `storage-vector/src/ledger.rs::build_replay_entry`
(repo id kept as bytes, consistent with this namespace's conventions). -/
structure VsReplayEntry where
  sequence : Nat
  repoId : Bytes
  delayedMs : Nat
  payloadChecksumBefore : String
  payloadChecksumAfter : String
  status : String
deriving Repr, DecidableEq

/-- `checksum_placeholder`: `format!("len:{}", bytes.len())`. -/
def checksum_placeholder (bytes : Bytes) : String := "len:" ++ toString bytes.length

/-- `build_replay_entry`. -/
def build_replay_entry (sequence : Nat) (repoId : Bytes) (before after status : String) :
    VsReplayEntry :=
  { sequence, repoId, delayedMs := 0, payloadChecksumBefore := before,
    payloadChecksumAfter := after, status }

/-- `VectorStore` (in-memory backend): the blob map, the atomic sequence
counter, and the optional encryption collaborators. -/
structure VectorStore where
  inner : List ((Bytes × Bytes) × Bytes)
  nextSequence : Nat
  encrypter : Option Encrypter
  kms : Option KeyManagerI

/-- First-match map lookup (observationally `HashMap::get`). -/
def mapGet (inner : List ((Bytes × Bytes) × Bytes)) (k : Bytes × Bytes) : Option Bytes :=
  (inner.find? (fun p => p.1 = k)).map (·.2)

/-- Map insert, modelled by prepending (shadows older bindings). -/
def mapInsert (inner : List ((Bytes × Bytes) × Bytes)) (k : Bytes × Bytes) (v : Bytes) :
    List ((Bytes × Bytes) × Bytes) :=
  (k, v) :: inner

namespace VectorStore

/-- `VectorStore::upsert` (in-memory backend). -/
def upsert (s : VectorStore) (repoId key payload : Bytes) :
    Except StoreError (VsReplayEntry × VectorStore) :=
  let before := checksum_placeholder payload
  match s.encrypter, s.kms with
  | some enc, some kms =>
    match kms.currentFn ⟨repoId⟩ with
    | .error e => .error (.Key e)
    | .ok kh =>
      let aad := build_aad repoId kh.keyId key
      match enc.sealFn kh payload aad with
      | .error e => .error (.Encryption e)
      | .ok sealed =>
        let after := checksum_placeholder payload
        let seq := s.nextSequence
        .ok (build_replay_entry seq repoId before after "emitted",
          { s with inner := mapInsert s.inner (repoId, key) sealed, nextSequence := seq + 1 })
  | _, _ =>
    let seq := s.nextSequence
    .ok (build_replay_entry seq repoId before before "emitted",
      { s with inner := mapInsert s.inner (repoId, key) payload, nextSequence := seq + 1 })

/-- `VectorStore::get` (in-memory backend). -/
def get (s : VectorStore) (repoId key : Bytes) : Except StoreError (Option Bytes) :=
  match mapGet s.inner (repoId, key) with
  | none => .ok none
  | some bytes =>
    match s.encrypter, s.kms with
    | some enc, some kms =>
      match peek_key_id bytes with
      | some kid =>
        match kms.getFn kid with
        | .error e => .error (.Key e)
        | .ok kh =>
          let aad := build_aad repoId kh.keyId key
          match enc.openFn kh bytes aad with
          | .error e => .error (.Encryption e)
          | .ok pt => .ok (some pt)
      | none => .error (.Encryption "missing or invalid envelope")
    | _, _ => .ok (some bytes)

end VectorStore

end StorageVector

namespace RuntimeTransportStdio

/-- `TransportError` from `runtime-transport-stdio/src/lib.rs` (the router
error is represented by its status code). -/
inductive TransportError where
  | Configuration (msg : String)
  | Unauthorized (msg : String)
  | Framing (msg : String)
  | Router (statusCode : Nat)
deriving Repr, DecidableEq

/-- `TokenEnvelope` (the raw token kept as wire bytes). -/
structure TokenEnvelope where
  rawToken : Bytes
  tokenId : String
  principal : String
  capabilities : List String
  expiresAt : Nat
deriving Repr, DecidableEq

/-- `TokenEnvelope::canonical`: `"{token_id}|{principal}|{capabilities.join(",")}|{expires_at}"`. -/
def TokenEnvelope.canonical (e : TokenEnvelope) : String :=
  e.tokenId ++ "|" ++ e.principal ++ "|" ++ String.intercalate "," e.capabilities ++ "|" ++
    toString e.expiresAt

/-- `FramingCodec`, parameterized over the JSON value type `J`. The fields
beyond `max_frame_length` model the external collaborators the codec calls:
the blake3-128 checksum, `TokenSigner::verify`, and `serde_json`'s
`to_vec` / `from_slice`. -/
structure FramingCodec (J : Type) where
  maxFrameLength : Nat
  checksum : Bytes → Bytes
  verify : Bytes → Except TransportError TokenEnvelope
  toVec : J → Bytes
  fromSlice : Bytes → Except String J

namespace FramingCodec

variable {J : Type}

/-- `FramingCodec::encode`. Note the header stores `payload_len as u32` and
`token_len as u16`, truncating. -/
def encode (c : FramingCodec J) (json : J) (token : Bytes) :
    Except TransportError Bytes :=
  match c.verify token with
  | .error e => .error e
  | .ok _ =>
    let payloadBytes := c.toVec json
    let frameLen := 4 + 2 + payloadBytes.length + token.length + 16
    if frameLen > c.maxFrameLength then .error (.Framing "frame exceeds maximum length")
    else
      let buffer := u32be payloadBytes.length ++ u16be token.length ++ payloadBytes ++ token
      .ok (buffer ++ c.checksum buffer)

/-- `FramingCodec::decode_with_envelope`. -/
def decodeWithEnvelope (c : FramingCodec J) (frame : Bytes) :
    Except TransportError (J × TokenEnvelope) :=
  if frame.length < 4 + 2 + 16 then .error (.Framing "frame too short")
  else if frame.length > c.maxFrameLength then .error (.Framing "frame exceeds maximum length")
  else
    let payloadLen := fromBe32 (frame.take 4)
    let cursor1 := frame.drop 4
    let tokenLen := fromBe16 (cursor1.take 2)
    let cursor := cursor1.drop 2
    if payloadLen + tokenLen + 16 ≠ cursor.length then .error (.Framing "frame length mismatch")
    else
      let payloadBytes := cursor.take payloadLen
      let remainder := cursor.drop payloadLen
      let tokenBytes := remainder.take tokenLen
      let checksumBytes := remainder.drop tokenLen
      let expected := c.checksum (frame.take (frame.length - 16))
      if checksumBytes ≠ expected then .error (.Framing "checksum mismatch")
      else
        match c.fromSlice payloadBytes with
        | .error err => .error (.Framing ("invalid json: " ++ err))
        | .ok payload =>
          if validUtf8 tokenBytes then
            match c.verify tokenBytes with
            | .error e => .error e
            | .ok envelope => .ok (payload, envelope)
          else .error (.Framing "token not utf8")

/-- `FramingCodec::decode`. -/
def decode (c : FramingCodec J) (frame : Bytes) :
    Except TransportError (J × Bytes) :=
  match c.decodeWithEnvelope frame with
  | .error e => .error e
  | .ok (v, envelope) => .ok (v, envelope.rawToken)

end FramingCodec

end RuntimeTransportStdio

namespace RuntimeTransportHttp

/-- `TransportError` from `runtime-transport-http/src/lib.rs`. -/
inductive TransportError where
  | Configuration (msg : String)
  | Unauthorized (msg : String)
  | Csrf (msg : String)
  | InvalidRequest (msg : String)
  | Router (statusCode : Nat)
deriving Repr, DecidableEq

/-- `TokenEnvelope` from the HTTP adapter (signature embedded). -/
structure TokenEnvelope where
  tokenId : String
  principal : String
  capabilities : List String
  expiresAt : Nat
  csrfNonce : String
  signature : String
deriving Repr, DecidableEq

/-- `TokenEnvelope::canonical`:
`"{token_id}|{principal}|{capabilities.join(",")}|{expires_at}|{csrf_nonce}"`. -/
def TokenEnvelope.canonical (e : TokenEnvelope) : String :=
  e.tokenId ++ "|" ++ e.principal ++ "|" ++ String.intercalate "," e.capabilities ++ "|" ++
    toString e.expiresAt ++ "|" ++ e.csrfNonce

/-- `TokenSigner::verify`, from the point where the envelope has been
deserialized (base64 + serde are inverses on tokens produced by `issue`;
`sign` models the keyed blake3 signature as a function of the canonical
string). -/
def verifyEnvelope (sign : String → String) (now : Nat) (envelope : TokenEnvelope) :
    Except TransportError TokenEnvelope :=
  if envelope.signature ≠ sign envelope.canonical then
    .error (.Unauthorized "token signature mismatch")
  else if envelope.expiresAt ≤ now then .error (.Unauthorized "token expired")
  else .ok envelope

end RuntimeTransportHttp

namespace IngestionSanitization

/-!
Embedding of `ingestion-sanitization`'s `Sanitizer::apply`, specialized to
redaction patterns that are literal strings (every literal string is a valid
regex denoting exactly itself, so `Regex::new` cannot fail on these configs
and `find_iter` / `replace_all` follow leftmost, non-overlapping literal
matching). Text is a `List Char`.
-/

/-- The replacement literal `[REDACTED]`. -/
def REDACTED : List Char := ['[', 'R', 'E', 'D', 'A', 'C', 'T', 'E', 'D', ']']

/-- `Regex::find_iter` for a literal pattern: leftmost, non-overlapping
matches, each equal to the pattern. -/
def findIterLit (p : List Char) : List Char → List (List Char)
  | [] => []
  | c :: t =>
    if h : p ≠ [] ∧ p.isPrefixOf (c :: t) then
      p :: findIterLit p (List.drop p.length (c :: t))
    else findIterLit p t
termination_by s => s.length
decreasing_by
  · have hp : 0 < p.length := List.length_pos.mpr h.1
    simp [List.length_drop]; omega
  · simp

/-- `Regex::replace_all` for a literal pattern: replace each leftmost,
non-overlapping match with `r`. -/
def replaceAllLit (p r : List Char) : List Char → List Char
  | [] => []
  | c :: t =>
    if h : p ≠ [] ∧ p.isPrefixOf (c :: t) then
      r ++ replaceAllLit p r (List.drop p.length (c :: t))
    else c :: replaceAllLit p r t
termination_by s => s.length
decreasing_by
  · have hp : 0 < p.length := List.length_pos.mpr h.1
    simp [List.length_drop]; omega
  · simp

/-- `SanitizationConfig` (patterns restricted to literals, see above). -/
structure SanitizationConfig where
  redactPatterns : List (List Char)
  scriptIndicators : List (List Char)

/-- The slice of `PlannedChunk` that `apply` reads. -/
structure PlannedChunk where
  planId : String
  payload : List Char

/-- `SanitizedChunk`. -/
structure SanitizedChunk where
  planId : String
  scrubbedPayload : List Char
  redactionLog : List String
  validationStatus : String

/-- The pattern loop of `Sanitizer::apply`: for each pattern in declaration
order, find all matches in the current text; if any, log a
`"{pattern} => count={n}, digest={hex}"` line (`digest` models the blake3
hash of the captures) and replace all matches with `[REDACTED]`. -/
def applyPatterns (digest : List (List Char) → String) :
    List (List Char) → List Char → List String → List Char × List String
  | [], scrubbed, log => (scrubbed, log)
  | p :: ps, scrubbed, log =>
    let found := findIterLit p scrubbed
    if found.isEmpty then applyPatterns digest ps scrubbed log
    else
      applyPatterns digest ps (replaceAllLit p REDACTED scrubbed)
        (log ++ [String.mk p ++ " => count=" ++ toString found.length ++ ", digest=" ++
          digest found])

/-- The validation pass: status is `"script-reviewed"` iff the original
payload starts with some script indicator. -/
def validationStatusOf (indicators : List (List Char)) (payload : List Char) : String :=
  if indicators.any (fun ind => ind.isPrefixOf payload) then "script-reviewed" else "clean"

/-- `Sanitizer::apply` (literal patterns; `Regex::new` cannot fail, so the
`InvalidPattern` error path is unreachable and the result is total). -/
def sanitizerApply (digest : List (List Char) → String) (config : SanitizationConfig)
    (chunk : PlannedChunk) : SanitizedChunk :=
  let sl := applyPatterns digest config.redactPatterns chunk.payload []
  { planId := chunk.planId
    scrubbedPayload := sl.1
    redactionLog := sl.2
    validationStatus := validationStatusOf config.scriptIndicators chunk.payload }

end IngestionSanitization

/-- An envelope survives the age purge at `now` iff its age is within `max_age`
(or its timestamp lies in the future). -/
def StorageLedger.envAgeOk (maxAge now ins : Nat) : Prop := ins ≤ now → now - ins ≤ maxAge

/-- `push` followed by `unwrap` (used to build concrete scenario buffers whose
pushes cannot fail). -/
def StorageLedger.pushD (b : StorageLedger.OfflineReplayBuffer)
    (e : StorageLedger.ReplayEntry) (now : Nat) : StorageLedger.OfflineReplayBuffer :=
  match b.push e now with
  | .ok b' => b'
  | .error _ => b

/-- A buffered replay entry at the given sequence, as in the crate's tests. -/
def mkBufferedEntry (seq : Nat) : StorageLedger.ReplayEntry :=
  { sequence := seq, repoId := "repo-mid-flush", delayedMs := 0,
    payloadChecksumBefore := "before-" ++ toString seq,
    payloadChecksumAfter := "after-" ++ toString seq, status := "buffered" }

/-- C1 scenario config: `sequence_start = 50` (mirrors
`flush_offline_handles_queue_failure_mid_flush`). -/
def c1Config : IngestionManifest.ManifestEmitterConfig :=
  { sequenceStart := 50, encryptionKey := "test-key", retentionMaxEntries := 8,
    retentionMaxAgeMs := 60000 }

/-- C1 scenario buffer: preloaded with sequences 40, 41, 42. -/
def c1Buffer : StorageLedger.OfflineReplayBuffer :=
  StorageLedger.pushD
    (StorageLedger.pushD
      (StorageLedger.pushD (StorageLedger.OfflineReplayBuffer.new 8 60000) (mkBufferedEntry 40) 0)
      (mkBufferedEntry 41) 0)
    (mkBufferedEntry 42) 0

/-- C1 scenario diff. -/
def c1Diff : IngestionManifest.ManifestDiff :=
  { repoId := "repo-mid-flush", appliedAtMs := 0, addedChunks := ["chunk-mid"],
    removedChunks := [], checksumBefore := "before-mid", checksumAfter := "after-mid" }

/-- C1: emit while the queue is offline (the entry gets buffered). -/
def c1AfterEmit :
    Except IngestionManifest.ManifestError Unit × IngestionManifest.ManifestEmitter ×
      List StorageLedger.ReplayEntry :=
  (IngestionManifest.ManifestEmitter.new c1Config c1Buffer).emit (some "queue offline") c1Diff 0

/-- C1: the queue comes back online and the backlog is flushed. -/
def c1Flush : IngestionManifest.ManifestEmitter.FlushState :=
  IngestionManifest.ManifestEmitter.flushOffline (fun _ => none) c1AfterEmit.2.1 0

/-- C5 scenario config (`retention_max_age` = 60 s, as in the crate's tests). -/
def c5Config : IngestionManifest.ManifestEmitterConfig :=
  { sequenceStart := 1, encryptionKey := "test-key", retentionMaxEntries := 16,
    retentionMaxAgeMs := 60000 }

/-- C5 scenario diff, applied at t = 1000 ms. -/
def c5Diff : IngestionManifest.ManifestDiff :=
  { repoId := "repo-omega", appliedAtMs := 1000, addedChunks := ["chunk-0"],
    removedChunks := [], checksumBefore := "before", checksumAfter := "after" }

/-- C5 scenario emitter over an empty buffer. -/
def c5Emitter : IngestionManifest.ManifestEmitter :=
  IngestionManifest.ManifestEmitter.new c5Config (StorageLedger.OfflineReplayBuffer.new 16 60000)

/-- C2 witness scenario: two buffered entries. -/
def c2Buffer : StorageLedger.OfflineReplayBuffer :=
  StorageLedger.pushD
    (StorageLedger.pushD (StorageLedger.OfflineReplayBuffer.new 8 1000) (mkBufferedEntry 1) 0)
    (mkBufferedEntry 2) 0

/-- C2 witness emitter. -/
def c2Emitter : IngestionManifest.ManifestEmitter :=
  IngestionManifest.ManifestEmitter.new
    { sequenceStart := 10, encryptionKey := "k", retentionMaxEntries := 8,
      retentionMaxAgeMs := 1000 } c2Buffer

/-- C2 witness queue behavior: the first send succeeds, the second fails. -/
def c2Send : Nat → Option String := fun i => if i = 0 then none else some "queue offline"

/-- `"k1"` as bytes. -/
def k1Bytes : Bytes := [107, 49]

/-- `"k2"` as bytes. -/
def k2Bytes : Bytes := [107, 50]

/-- `[1u8; 32]`. -/
def key1Bytes : Bytes := List.replicate 32 1

/-- `[2u8; 32]`. -/
def key2Bytes : Bytes := List.replicate 32 2

/-- `"repo-rot"` as bytes. -/
def repoRot : Bytes := [114, 101, 112, 111, 45, 114, 111, 116]

/-- `"a"` as bytes. -/
def recA : Bytes := [97]

/-- `"b"` as bytes. -/
def recB : Bytes := [98]

/-- `"alpha"` as bytes. -/
def alphaBytes : Bytes := [97, 108, 112, 104, 97]

/-- `"beta"` as bytes. -/
def betaBytes : Bytes := [98, 101, 116, 97]

/-- C4: key manager seeded with `k1 = [1; 32]`. -/
def c4Kms0 : StorageVector.InMemoryKeyManager :=
  StorageVector.InMemoryKeyManager.new_with_secret k1Bytes key1Bytes

/-- C4: the key manager after `set_current("k2", [2; 32])`. -/
def c4Kms1 : StorageVector.InMemoryKeyManager := c4Kms0.set_current k2Bytes key2Bytes

/-- The handle `current` returns before rotation. -/
def kh1 : StorageVector.KeyHandle := ⟨k1Bytes, key1Bytes⟩

/-- The handle `current` returns after rotation. -/
def kh2 : StorageVector.KeyHandle := ⟨k2Bytes, key2Bytes⟩

/-- C3 witness: an encrypter whose open always fails (the claim's conclusions
hold for every encrypter; any concrete instance witnesses them). -/
def c3Enc : StorageVector.Encrypter :=
  { sealFn := fun _ pt _ => .ok pt
    openFn := fun _ _ _ => .error "aead open failed" }

/-- C3 witness: a key manager that knows no key ids. -/
def c3Kms : StorageVector.KeyManagerI :=
  { currentFn := fun _ => .error "missing key bytes for current id"
    getFn := fun _ => .error "unknown key id" }

/-- C3 witness store: encrypted configuration with one non-envelope record. -/
def c3Store : StorageVector.VectorStore :=
  { inner := [((repoRot, recA), [1, 2, 3])], nextSequence := 1,
    encrypter := some c3Enc, kms := some c3Kms }

/-- C4 witness encrypter: a toy envelope-shaped scheme satisfying the seal /
peek / open hypotheses at the scenario's concrete inputs. -/
def c4Enc : StorageVector.Encrypter :=
  { sealFn := fun kh pt _ =>
      .ok (StorageVector.encode_envelope kh.keyId (List.replicate 12 0) (List.replicate 16 0) pt)
    openFn := fun kh bytes _ =>
      if bytes.take 4 = StorageVector.ENVELOPE_MAGIC then
        let keyLen := bytes.getD 4 0 * 256 + bytes.getD 5 0
        if (bytes.drop 6).take keyLen = kh.keyId then .ok (bytes.drop (6 + keyLen + 28))
        else .error "key id mismatch"
      else .error "bad envelope magic" }

/-- C6 counterexample codec: JSON values collapsed to `Unit`, a signer that
accepts every token, an arbitrary fixed checksum. -/
def c6cx : RuntimeTransportStdio.FramingCodec Unit :=
  { maxFrameLength := 70000
    checksum := fun _ => List.replicate 16 0
    verify := fun tok => .ok ⟨tok, "tid", "alice", ["stdio"], 9999⟩
    toVec := fun _ => []
    fromSlice := fun _ => .ok () }

/-- C6 counterexample token: 65536 bytes of `'a'` (a verifying token this
long exists: capability lists are unbounded). -/
def c6tok : Bytes := List.replicate 65536 97

/-- C6/C9 witness codec over `J = Nat`. -/
def c6wit : RuntimeTransportStdio.FramingCodec Nat :=
  { maxFrameLength := 64
    checksum := fun _ => List.replicate 16 7
    verify := fun tok => .ok ⟨tok, "tid", "alice", ["stdio"], 1⟩
    toVec := fun n => [n % 256]
    fromSlice := fun l => match l with | [x] => .ok x | _ => .error "unexpected json" }

/-- The envelope `c6wit.verify` returns for the witness token `[97, 98]`. -/
def c6witEnv : RuntimeTransportStdio.TokenEnvelope := ⟨[97, 98], "tid", "alice", ["stdio"], 1⟩

/-- The frame `c6wit.encode 49 [97, 98]` produces. -/
def c6witFrame : Bytes := [0, 0, 0, 1, 0, 2, 49, 97, 98] ++ List.replicate 16 7

/-- C9 counterexample frame: 22 bytes long (< 34), with a declared payload
length of 100 so the failure is at the length-arithmetic check for every
checksum function. -/
def c9frame : Bytes := [0, 0, 0, 100, 0, 0] ++ List.replicate 16 0

/-- C10 witness envelope: signed (under `sign = id`) with capability list
`["a,b"]`. -/
def c10Env : RuntimeTransportHttp.TokenEnvelope :=
  { tokenId := "t", principal := "p", capabilities := ["a,b"], expiresAt := 5,
    csrfNonce := "n", signature := "t|p|a,b|5|n" }

/-- C8 counterexample config: the single (valid, literal) pattern `"E"`. -/
def c8cxConfig : IngestionSanitization.SanitizationConfig :=
  { redactPatterns := [['E']], scriptIndicators := [] }

/-- C8 counterexample chunk. -/
def c8cxChunk : IngestionSanitization.PlannedChunk := { planId := "plan-1", payload := ['E'] }

/-- C8 witness config: literal pattern `"xyz"`, disjoint from `[REDACTED]`. -/
def c8witConfig : IngestionSanitization.SanitizationConfig :=
  { redactPatterns := [['x', 'y', 'z']], scriptIndicators := [] }

/-- C8 witness chunk. -/
def c8witChunk : IngestionSanitization.PlannedChunk :=
  { planId := "plan-2", payload := ['a', 'x', 'y', 'z', 'b'] }

/-!
## Theorems

One main theorem per claim (plus counterexamples, witnesses, and the helper
lemmas they share).
-/

/-- C1: the spec states that `ManifestEmitter::new` initializes
`next_sequence = max(buffer.max_sequence()+1, config.sequence_start)`, so with
the buffer preloaded at sequences {40,41,42} and `sequence_start = 50` the
first emit should get sequence 50 and the flushed send history should be
[40,41,42,50]. The code computes `buffer.max_sequence().map(|s| s+1)
.unwrap_or(sequence_start)` instead, which ignores the configured floor
whenever the buffer is nonempty: `next_sequence` starts at 43 and the send
history after a successful `flush_offline` is [40,41,42,43]. The crate's own
tests (`emitter_respects_configured_sequence_floor_over_buffered_entries`,
`flush_offline_handles_queue_failure_mid_flush`) require the spec's behavior,
so this is a code bug. -/
theorem c1_next_sequence_ignores_configured_floor :
    (IngestionManifest.ManifestEmitter.new c1Config c1Buffer).nextSequence = 43 ∧
    max (42 + 1) c1Config.sequenceStart = 50 ∧
    c1Flush.result = .ok () ∧
    c1Flush.history.map (fun e => e.sequence) = [40, 41, 42, 43] ∧
    ([40, 41, 42, 43] : List Nat) ≠ [40, 41, 42, 50] := by decide

/-- C5: the spec states that each emit attempt records
`delayed_ms = max(0, now − diff.applied_at)` in milliseconds, with
future-dated diffs clamped to 0. The code's `build_entry` instead stores
`config.retention_max_age.as_millis()` and never reads `diff.applied_at`:
with `retention_max_age = 60 s` and `applied_at = now` (spec: delay 0) the
built entry carries `delayed_ms = 60000`, and a future `applied_at` (spec:
clamp to 0) also yields 60000. The crate's own test
(`emitter_records_delay_based_on_applied_at`) requires the spec's behavior,
so this is a code bug. -/
theorem c5_delayed_ms_taken_from_retention_age :
    (c5Emitter.buildEntry c5Diff 1).delayedMs = 60000 ∧
    IngestionManifest.ManifestEmitter.specDelayedMs 1000 1000 = 0 ∧
    IngestionManifest.ManifestEmitter.specDelayedMs 1000 6000 = 0 ∧
    (60000 : Nat) ≠ 0 := by decide

/-- C7: `requeue` re-inserts a drained envelope with its original
`inserted_at`, so expiration is computed from the original insertion time:
for any entry pushed at `t0` into a fresh buffer with capacity `cap > 0` and
age bound `maxAge`, drained at `t1` (within age), requeued at `t1`, and
drained again at `t2` with `t2 − t0 > maxAge`, the first drain returns the
envelope stamped `t0`, the requeued envelope still carries `t0`, and the
second drain returns nothing. -/
theorem c7_requeue_preserves_insertion_age
    (entry : StorageLedger.ReplayEntry) (cap maxAge t0 t1 t2 : Nat)
    (hcap : 0 < cap) (h01 : t0 ≤ t1) (h12 : t1 ≤ t2)
    (hok : t1 - t0 ≤ maxAge) (hexp : maxAge < t2 - t0) :
    ∃ b1 b2 b3 : StorageLedger.OfflineReplayBuffer,
      (StorageLedger.OfflineReplayBuffer.new cap maxAge).push entry t0 = .ok b1 ∧
      b1.drainReady t1 = ([⟨entry, t0⟩], b2) ∧
      b2.requeue ⟨entry, t0⟩ t1 = .ok b3 ∧
      b3.queue = [⟨entry, t0⟩] ∧
      (b3.drainReady t2).1 = [] := by
  have hcapne : ¬ cap = 0 := by omega
  have hsub : 1 - cap = 0 := by omega
  have ht2 : t0 ≤ t2 := le_trans h01 h12
  have hokA : t1 ≤ maxAge + t0 := by omega
  have hexpA : ¬ t2 ≤ maxAge + t0 := by omega
  refine ⟨⟨cap, maxAge, [⟨entry, t0⟩], some entry.sequence⟩,
          ⟨cap, maxAge, [], some entry.sequence⟩,
          ⟨cap, maxAge, [⟨entry, t0⟩], some entry.sequence⟩, ?_, ?_, ?_, rfl, ?_⟩
  · simp [StorageLedger.OfflineReplayBuffer.push, StorageLedger.OfflineReplayBuffer.pushEnvelope,
      StorageLedger.OfflineReplayBuffer.new, StorageLedger.OfflineReplayBuffer.purgeLocked,
      StorageLedger.OfflineReplayBuffer.evictFront, List.filter_cons, hcapne, hsub]
  · simp [StorageLedger.OfflineReplayBuffer.drainReady,
      StorageLedger.OfflineReplayBuffer.purgeLocked, List.filter_cons, h01, hokA]
  · simp [StorageLedger.OfflineReplayBuffer.requeue, StorageLedger.OfflineReplayBuffer.pushEnvelope,
      StorageLedger.OfflineReplayBuffer.purgeLocked, StorageLedger.OfflineReplayBuffer.evictFront,
      List.filter_cons, hcapne, hsub, h01, hokA]
  · simp [StorageLedger.OfflineReplayBuffer.drainReady,
      StorageLedger.OfflineReplayBuffer.purgeLocked, List.filter_cons, ht2, hexpA]

/-- C7 witness: the spec's concrete run (max_age 100 ms; push at t=0, drain
and requeue at t=40, drain at t=120 returns nothing). -/
theorem c7_requeue_preserves_insertion_age_witness :
    ∃ b1 b2 b3 : StorageLedger.OfflineReplayBuffer,
      (StorageLedger.OfflineReplayBuffer.new 16 100).push (mkBufferedEntry 1) 0 = .ok b1 ∧
      b1.drainReady 40 = ([⟨mkBufferedEntry 1, 0⟩], b2) ∧
      b2.requeue ⟨mkBufferedEntry 1, 0⟩ 40 = .ok b3 ∧
      b3.queue = [⟨mkBufferedEntry 1, 0⟩] ∧
      (b3.drainReady 120).1 = [] :=
  c7_requeue_preserves_insertion_age (mkBufferedEntry 1) 16 100 0 40 120
    (by decide) (by decide) (by decide) (by decide) (by decide)

/-- C9 counterexample: a 22-byte frame (shorter than the claimed 34-byte
minimum) is not rejected at the minimum-size check: it passes it and reaches
the length-arithmetic check, failing there with `"frame length mismatch"`
rather than `"frame too short"` (the chosen frame declares a payload length
of 100, so this holds for every checksum function and signer). -/
theorem c9_short_frame_passes_min_size_check :
    c9frame.length = 22 ∧ c9frame.length < 34 ∧
    c6wit.decode c9frame = .error (.Framing "frame length mismatch") ∧
    (RuntimeTransportStdio.TransportError.Framing "frame length mismatch" ≠
      RuntimeTransportStdio.TransportError.Framing "frame too short") := by decide

/-- C9 (amended): the minimum-size check in `decode_with_envelope` is
`len < 4 + 2 + 16 = 22`, not 34: every frame shorter than 22 bytes is
rejected with `Framing("frame too short")` before length arithmetic,
checksum comparison, payload parsing, or token verification (frames of
length 22..33 proceed past the minimum-size check). -/
theorem c9_frames_shorter_than_22_rejected_first {J : Type}
    (c : RuntimeTransportStdio.FramingCodec J) (frame : Bytes)
    (h : frame.length < 4 + 2 + 16) :
    c.decode frame = .error (.Framing "frame too short") := by
  simp [RuntimeTransportStdio.FramingCodec.decode,
    RuntimeTransportStdio.FramingCodec.decodeWithEnvelope, h]

/-- C9 witness: the 4-byte frame from the crate's `rejects_bad_checksum`
test is rejected at the minimum-size check. -/
theorem c9_frames_shorter_than_22_rejected_first_witness :
    (([0, 1, 2, 3] : Bytes).length < 4 + 2 + 16) ∧
    c6wit.decode [0, 1, 2, 3] = .error (.Framing "frame too short") :=
  ⟨by decide, c9_frames_shorter_than_22_rejected_first c6wit [0, 1, 2, 3] (by decide)⟩

/-- C10: the canonical string joins capabilities with `','` and no escaping,
so it is not injective in the capability list: for an envelope with
capabilities `["a,b"]` that verifies, the envelope with capabilities
`["a", "b"]` (a different list) has the same canonical string and the same
signature check, so it passes `verify` as well; the STDIO signer's canonical
string collides identically. -/
theorem c10_capability_join_not_injective
    (sign : String → String) (now : Nat) (e : RuntimeTransportHttp.TokenEnvelope)
    (hcaps : e.capabilities = ["a,b"])
    (hver : RuntimeTransportHttp.verifyEnvelope sign now e = .ok e) :
    (["a,b"] : List String) ≠ ["a", "b"] ∧
    RuntimeTransportHttp.TokenEnvelope.canonical { e with capabilities := ["a", "b"] } =
      RuntimeTransportHttp.TokenEnvelope.canonical e ∧
    RuntimeTransportHttp.verifyEnvelope sign now { e with capabilities := ["a", "b"] } =
      .ok { e with capabilities := ["a", "b"] } ∧
    RuntimeTransportStdio.TokenEnvelope.canonical ⟨[], "t", "p", ["a,b"], 0⟩ =
      RuntimeTransportStdio.TokenEnvelope.canonical ⟨[], "t", "p", ["a", "b"], 0⟩ := by
  have hjoin : String.intercalate "," ["a", "b"] = String.intercalate "," ["a,b"] := by decide
  have hcan : RuntimeTransportHttp.TokenEnvelope.canonical { e with capabilities := ["a", "b"] } =
      RuntimeTransportHttp.TokenEnvelope.canonical e := by
    simp [RuntimeTransportHttp.TokenEnvelope.canonical, hcaps, hjoin]
  refine ⟨by decide, hcan, ?_, by decide⟩
  unfold RuntimeTransportHttp.verifyEnvelope at hver ⊢
  by_cases h1 : e.signature ≠ sign e.canonical
  · rw [if_pos h1] at hver; simp at hver
  · by_cases h2 : e.expiresAt ≤ now
    · rw [if_neg h1, if_pos h2] at hver; simp at hver
    · rw [hcan]
      simp only [RuntimeTransportHttp.TokenEnvelope.canonical] at *
      rw [if_neg h1, if_neg h2]

/-- C10 witness: a concrete envelope signed (under `sign = id`) over
capabilities `["a,b"]`, and the conclusion at that envelope. -/
theorem c10_capability_join_not_injective_witness :
    c10Env.capabilities = ["a,b"] ∧
    RuntimeTransportHttp.verifyEnvelope id 0 c10Env = .ok c10Env ∧
    ((["a,b"] : List String) ≠ ["a", "b"] ∧
      RuntimeTransportHttp.TokenEnvelope.canonical { c10Env with capabilities := ["a", "b"] } =
        RuntimeTransportHttp.TokenEnvelope.canonical c10Env ∧
      RuntimeTransportHttp.verifyEnvelope id 0 { c10Env with capabilities := ["a", "b"] } =
        .ok { c10Env with capabilities := ["a", "b"] } ∧
      RuntimeTransportStdio.TokenEnvelope.canonical ⟨[], "t", "p", ["a,b"], 0⟩ =
        RuntimeTransportStdio.TokenEnvelope.canonical ⟨[], "t", "p", ["a", "b"], 0⟩) :=
  ⟨rfl, by decide, c10_capability_join_not_injective id 0 c10Env rfl (by decide)⟩

/-- C8 counterexample: with the (valid) declared pattern `"E"` and input
`"E"`, the scrubbed payload is the literal `[REDACTED]`, which itself
contains the substring `"E"` matching the declared pattern — so the claim's
universal statement over all valid-regex configurations fails. -/
theorem c8_scrubbed_payload_matches_declared_pattern :
    (IngestionSanitization.sanitizerApply (fun _ => "deadbeef") c8cxConfig c8cxChunk).scrubbedPayload
      = IngestionSanitization.REDACTED ∧
    ['E'] ∈ c8cxConfig.redactPatterns ∧
    ['E'] <:+:
      (IngestionSanitization.sanitizerApply (fun _ => "deadbeef") c8cxConfig c8cxChunk).scrubbedPayload := by
  have hs : (IngestionSanitization.sanitizerApply (fun _ => "deadbeef") c8cxConfig
      c8cxChunk).scrubbedPayload = IngestionSanitization.REDACTED := by
    simp [IngestionSanitization.sanitizerApply, IngestionSanitization.applyPatterns,
      IngestionSanitization.findIterLit, IngestionSanitization.replaceAllLit,
      c8cxConfig, c8cxChunk, IngestionSanitization.REDACTED]
  refine ⟨hs, by decide, ?_⟩
  rw [hs]
  decide

/-- The purge predicate holds exactly on age-ok envelopes. -/
theorem purge_cond_iff (maxAge now : Nat) (env : StorageLedger.ReplayEnvelope) :
    ((if env.insertedAt ≤ now then decide (now - env.insertedAt ≤ maxAge) else true) = true)
      ↔ StorageLedger.envAgeOk maxAge now env.insertedAt := by
  by_cases h : env.insertedAt ≤ now <;> simp [h, StorageLedger.envAgeOk]

/-- Purging a queue of age-ok envelopes is the identity. -/
theorem purgeLocked_eq_self {maxAge now : Nat} {q : List StorageLedger.ReplayEnvelope}
    (h : ∀ env ∈ q, StorageLedger.envAgeOk maxAge now env.insertedAt) :
    StorageLedger.OfflineReplayBuffer.purgeLocked maxAge now q = q :=
  List.filter_eq_self.mpr fun env henv => (purge_cond_iff maxAge now env).mpr (h env henv)

/-- Front-eviction on a queue within capacity is the identity. -/
theorem evictFront_eq_self {maxEntries : Nat} {q : List StorageLedger.ReplayEnvelope}
    (h : q.length ≤ maxEntries) :
    StorageLedger.OfflineReplayBuffer.evictFront maxEntries q = q := by
  unfold StorageLedger.OfflineReplayBuffer.evictFront
  rw [Nat.sub_eq_zero_of_le h, List.drop_zero]

/-- `push_envelope` on an in-capacity buffer of age-ok envelopes appends the
new envelope (and updates `max_sequence_seen`). -/
theorem pushEnvelope_ok {b : StorageLedger.OfflineReplayBuffer}
    {entry : StorageLedger.ReplayEntry} {ins now : Nat}
    (hcap : b.maxEntries ≠ 0)
    (hq : ∀ env ∈ b.queue, StorageLedger.envAgeOk b.maxAge now env.insertedAt)
    (hins : StorageLedger.envAgeOk b.maxAge now ins)
    (hlen : b.queue.length + 1 ≤ b.maxEntries) :
    b.pushEnvelope entry ins now = .ok { b with
      queue := b.queue ++ [⟨entry, ins⟩],
      maxSequenceSeen :=
        match b.maxSequenceSeen with
        | some existing =>
          if existing ≥ entry.sequence then some existing else some entry.sequence
        | none => some entry.sequence } := by
  unfold StorageLedger.OfflineReplayBuffer.pushEnvelope
  rw [if_neg hcap]
  have hall : ∀ env ∈ b.queue ++ [(⟨entry, ins⟩ : StorageLedger.ReplayEnvelope)],
      StorageLedger.envAgeOk b.maxAge now env.insertedAt := by
    intro env henv
    rcases List.mem_append.mp henv with h | h
    · exact hq env h
    · simp at h; subst h; exact hins
  have h1 := purgeLocked_eq_self hall
  have h2 : StorageLedger.OfflineReplayBuffer.evictFront b.maxEntries
      (b.queue ++ [(⟨entry, ins⟩ : StorageLedger.ReplayEnvelope)]) = b.queue ++ [⟨entry, ins⟩] :=
    evictFront_eq_self (by simp; omega)
  simp only [h1, h2]

/-- The requeue loop after a mid-flush failure appends the remaining drained
envelopes in order, with status `"buffered"` and original timestamps. -/
theorem requeueRest_ok (now : Nat) :
    ∀ (L : List StorageLedger.ReadyReplayEntry) (b : StorageLedger.OfflineReplayBuffer),
      b.maxEntries ≠ 0 →
      (∀ env ∈ b.queue, StorageLedger.envAgeOk b.maxAge now env.insertedAt) →
      (∀ r ∈ L, StorageLedger.envAgeOk b.maxAge now r.insertedAt) →
      b.queue.length + L.length ≤ b.maxEntries →
      ∃ b', IngestionManifest.ManifestEmitter.requeueRest now b L = .ok b' ∧
        b'.queue = b.queue ++
          L.map (fun r => ⟨{ r.entry with status := "buffered" }, r.insertedAt⟩) ∧
        b'.maxEntries = b.maxEntries ∧ b'.maxAge = b.maxAge
  | [], b => by
    intro hcap hq hL hlen
    exact ⟨b, rfl, by simp, rfl, rfl⟩
  | r :: rest, b => by
    intro hcap hq hL hlen
    have hins : StorageLedger.envAgeOk b.maxAge now r.insertedAt := hL r (by simp)
    have hstep : b.requeue ⟨{ r.entry with status := "buffered" }, r.insertedAt⟩ now
        = .ok { b with
            queue := b.queue ++ [⟨{ r.entry with status := "buffered" }, r.insertedAt⟩],
            maxSequenceSeen :=
              match b.maxSequenceSeen with
              | some existing =>
                if existing ≥ r.entry.sequence then some existing else some r.entry.sequence
              | none => some r.entry.sequence } :=
      pushEnvelope_ok hcap hq hins (by simp at hlen ⊢; omega)
    obtain ⟨b', hb', hqueue, hme, hma⟩ :=
      requeueRest_ok now rest
        { b with
          queue := b.queue ++ [⟨{ r.entry with status := "buffered" }, r.insertedAt⟩],
          maxSequenceSeen :=
            match b.maxSequenceSeen with
            | some existing =>
              if existing ≥ r.entry.sequence then some existing else some r.entry.sequence
            | none => some r.entry.sequence }
        hcap
        (by
          intro env henv
          rcases List.mem_append.mp henv with h | h
          · exact hq env h
          · simp at h; subst h; exact hins)
        (fun x hx => hL x (by simp [hx]))
        (by simp at hlen ⊢; omega)
    refine ⟨b', ?_, ?_, ?_, ?_⟩
    · simp only [IngestionManifest.ManifestEmitter.requeueRest, hstep]
      exact hb'
    · rw [hqueue]; simp
    · exact hme
    · exact hma

/-- The send loop of `flush_offline`, when the (k+1)-st send of the flush
fails: the queue receives exactly the first k drained entries (status
`"emitted"`), the failing envelope and all subsequent ones are requeued in
order (status `"buffered"`, timestamps preserved), and the loop returns
`QueueOffline`. -/
theorem flushGo_fail (send : Nat → Option String) (now : Nat) (msg : String) :
    ∀ (k : Nat) (drained : List StorageLedger.ReadyReplayEntry) (idx : Nat)
      (e : IngestionManifest.ManifestEmitter) (hist : List StorageLedger.ReplayEntry),
      e.buffer.queue = [] →
      e.buffer.maxEntries ≠ 0 →
      drained.length ≤ e.buffer.maxEntries →
      (∀ r ∈ drained, StorageLedger.envAgeOk e.buffer.maxAge now r.insertedAt) →
      (∀ i, i < k → send (idx + i) = none) →
      send (idx + k) = some msg →
      k < drained.length →
      (IngestionManifest.ManifestEmitter.flushGo send now drained idx e hist).result
          = .error (.QueueOffline msg) ∧
      (IngestionManifest.ManifestEmitter.flushGo send now drained idx e hist).history
          = hist ++ (drained.take k).map (fun r => { r.entry with status := "emitted" }) ∧
      (IngestionManifest.ManifestEmitter.flushGo send now drained idx e hist).emitter.buffer.queue
          = (drained.drop k).map
              (fun r => ⟨{ r.entry with status := "buffered" }, r.insertedAt⟩) := by
  intro k
  induction k with
  | zero =>
    intro drained idx e hist hq hcap hlen hage hok hfail hk
    cases drained with
    | nil => simp at hk
    | cons r rest =>
      have hsend : send idx = some msg := by simpa using hfail
      have hins : StorageLedger.envAgeOk e.buffer.maxAge now r.insertedAt := hage r (by simp)
      have hstep : e.buffer.requeue ⟨{ r.entry with status := "buffered" }, r.insertedAt⟩ now
          = .ok { e.buffer with
              queue := e.buffer.queue ++ [⟨{ r.entry with status := "buffered" }, r.insertedAt⟩],
              maxSequenceSeen :=
                match e.buffer.maxSequenceSeen with
                | some existing =>
                  if existing ≥ r.entry.sequence then some existing else some r.entry.sequence
                | none => some r.entry.sequence } :=
        pushEnvelope_ok hcap
          (by rw [hq]; intro env henv; simp at henv)
          hins (by rw [hq]; simp at hlen ⊢; omega)
    -- requeue the remaining drained envelopes
      obtain ⟨b2, hb2, hb2q, _, _⟩ :=
        requeueRest_ok now rest
          { e.buffer with
            queue := e.buffer.queue ++ [⟨{ r.entry with status := "buffered" }, r.insertedAt⟩],
            maxSequenceSeen :=
              match e.buffer.maxSequenceSeen with
              | some existing =>
                if existing ≥ r.entry.sequence then some existing else some r.entry.sequence
              | none => some r.entry.sequence }
          hcap
          (by
            intro env henv
            rcases List.mem_append.mp henv with h | h
            · exact absurd (hq ▸ h) (List.not_mem_nil env)
            · simp at h; subst h; exact hins)
          (fun x hx => hage x (by simp [hx]))
          (by rw [hq]; simp at hlen ⊢; omega)
      refine ⟨?_, ?_, ?_⟩ <;>
        simp only [IngestionManifest.ManifestEmitter.flushGo, hsend, hstep, hb2, List.take_zero,
          List.map_nil, List.append_nil, List.drop_zero, List.map_cons]
      rw [hb2q, hq]
      simp
  | succ k ih =>
    intro drained idx e hist hq hcap hlen hage hok hfail hk
    cases drained with
    | nil => simp at hk
    | cons r rest =>
      have hsend : send idx = none := by simpa using hok 0 (by omega)
      have ih' := ih rest (idx + 1)
        { e with nextSequence := max e.nextSequence (r.entry.sequence + 1) }
        (hist ++ [{ r.entry with status := "emitted" }])
        hq hcap
        (by simp at hlen ⊢; omega)
        (fun x hx => hage x (by simp [hx]))
        (by
          intro i hi
          have h := hok (i + 1) (by omega)
          rw [show idx + (i + 1) = idx + 1 + i by omega] at h
          exact h)
        (by rw [show idx + 1 + k = idx + (k + 1) by omega]; exact hfail)
        (by simp at hk ⊢; omega)
      refine ⟨?_, ?_, ?_⟩ <;>
        simp only [IngestionManifest.ManifestEmitter.flushGo, hsend, List.take_succ_cons,
          List.map_cons, List.drop_succ_cons]
      · exact ih'.1
      · rw [ih'.2.1]; simp
      · exact ih'.2.2

/-- C2: if the queue send fails on the (k+1)-st envelope drained by
`flush_offline` (indices 0..k−1 succeed, index k fails), then `flush_offline`
returns `QueueOffline`, the queue received exactly the ordered strict prefix
of the first k drained entries (sent with status `"emitted"`) and nothing
after, and the failing envelope together with every subsequent drained
envelope is requeued into the buffer in original drain order with status
`"buffered"` and original `inserted_at` timestamps unchanged. -/
theorem c2_flush_failure_requeues_ordered_suffix
    (send : Nat → Option String) (e : IngestionManifest.ManifestEmitter) (now k : Nat)
    (msg : String)
    (hcap : e.buffer.maxEntries ≠ 0)
    (hlen : e.buffer.queue.length ≤ e.buffer.maxEntries)
    (hok : ∀ i, i < k → send i = none)
    (hfail : send k = some msg)
    (hk : k < ((e.buffer.drainReady now).1).length) :
    (e.flushOffline send now).result = .error (.QueueOffline msg) ∧
    (e.flushOffline send now).history =
      (((e.buffer.drainReady now).1).take k).map
        (fun r => { r.entry with status := "emitted" }) ∧
    (e.flushOffline send now).emitter.buffer.queue =
      (((e.buffer.drainReady now).1).drop k).map
        (fun r => ⟨{ r.entry with status := "buffered" }, r.insertedAt⟩) := by
  have hmain := flushGo_fail send now msg k ((e.buffer.drainReady now).1) 0
    { e with buffer := (e.buffer.drainReady now).2 } []
    rfl hcap
    (by
      show (((StorageLedger.OfflineReplayBuffer.purgeLocked e.buffer.maxAge now
        e.buffer.queue).map _).length) ≤ e.buffer.maxEntries
      rw [List.length_map]
      exact le_trans (List.length_filter_le _ _) hlen)
    (by
      intro r hr
      obtain ⟨env, henv, rfl⟩ := List.mem_map.mp hr
      exact (purge_cond_iff _ _ env).mp (List.mem_filter.mp henv).2)
    (by intro i hi; rw [Nat.zero_add]; exact hok i hi)
    (by rw [Nat.zero_add]; exact hfail)
    hk
  have hunfold : e.flushOffline send now =
      IngestionManifest.ManifestEmitter.flushGo send now ((e.buffer.drainReady now).1) 0
        { e with buffer := (e.buffer.drainReady now).2 } [] := rfl
  rw [hunfold]
  refine ⟨hmain.1, ?_, hmain.2.2⟩
  rw [hmain.2.1]; simp

/-- C2 witness: two buffered entries, the first send succeeds and the second
fails. -/
theorem c2_flush_failure_requeues_ordered_suffix_witness :
    (c2Emitter.buffer.maxEntries ≠ 0) ∧
    (c2Emitter.buffer.queue.length ≤ c2Emitter.buffer.maxEntries) ∧
    (∀ i, i < 1 → c2Send i = none) ∧
    (c2Send 1 = some "queue offline") ∧
    (1 < ((c2Emitter.buffer.drainReady 5).1).length) ∧
    ((c2Emitter.flushOffline c2Send 5).result = .error (.QueueOffline "queue offline") ∧
      (c2Emitter.flushOffline c2Send 5).history =
        (((c2Emitter.buffer.drainReady 5).1).take 1).map
          (fun r => { r.entry with status := "emitted" }) ∧
      (c2Emitter.flushOffline c2Send 5).emitter.buffer.queue =
        (((c2Emitter.buffer.drainReady 5).1).drop 1).map
          (fun r => ⟨{ r.entry with status := "buffered" }, r.insertedAt⟩)) :=
  ⟨by decide, by decide, by decide, by decide, by decide,
    c2_flush_failure_requeues_ordered_suffix c2Send c2Emitter 5 1 "queue offline"
      (by decide) (by decide) (by decide) (by decide) (by decide)⟩

/-- C3: under an encrypted configuration (encrypter and key manager both
present), `get` never returns stored bytes without a successful AEAD open:
stored bytes that do not begin with the envelope magic yield
`Encryption("missing or invalid envelope")`, and an `Ok` result is only
possible when the envelope's key id was peeked, that key id resolved in the
key manager, and the AEAD open succeeded on the stored bytes — every
anomaly (bad magic, unknown key id, failed open) is an error. -/
theorem c3_get_fails_closed
    (enc : StorageVector.Encrypter) (kms : StorageVector.KeyManagerI)
    (s : StorageVector.VectorStore) (repoId key bytes pt : Bytes)
    (henc : s.encrypter = some enc) (hkms : s.kms = some kms)
    (hbytes : StorageVector.mapGet s.inner (repoId, key) = some bytes) :
    (bytes.take 4 ≠ StorageVector.ENVELOPE_MAGIC →
      s.get repoId key = .error (.Encryption "missing or invalid envelope")) ∧
    (s.get repoId key = .ok (some pt) →
      ∃ kid kh, StorageVector.peek_key_id bytes = some kid ∧
        kms.getFn kid = .ok kh ∧
        enc.openFn kh bytes (StorageVector.build_aad repoId kh.keyId key) = .ok pt) := by
  constructor
  · intro hmagic
    have hpeek : StorageVector.peek_key_id bytes = none := by
      unfold StorageVector.peek_key_id
      by_cases hl : bytes.length < 6
      · rw [if_pos hl]
      · rw [if_neg hl, if_pos hmagic]
    simp [StorageVector.VectorStore.get, hbytes, henc, hkms, hpeek]
  · intro hok
    rcases hpk : StorageVector.peek_key_id bytes with _ | kid
    · simp [StorageVector.VectorStore.get, hbytes, henc, hkms, hpk] at hok
    · rcases hkm : kms.getFn kid with err | kh
      · simp [StorageVector.VectorStore.get, hbytes, henc, hkms, hpk, hkm] at hok
      · rcases hop : enc.openFn kh bytes (StorageVector.build_aad repoId kh.keyId key)
            with err | ptGot
        · simp [StorageVector.VectorStore.get, hbytes, henc, hkms, hpk, hkm, hop] at hok
        · have hpt : ptGot = pt := by
            simp [StorageVector.VectorStore.get, hbytes, henc, hkms, hpk, hkm, hop] at hok
            exact hok
          exact ⟨kid, kh, rfl, hkm, by rw [hop, hpt]⟩

/-- C3 witness: a store holding a non-envelope record under an encrypted
configuration. -/
theorem c3_get_fails_closed_witness :
    (c3Store.encrypter = some c3Enc) ∧ (c3Store.kms = some c3Kms) ∧
    (StorageVector.mapGet c3Store.inner (repoRot, recA) = some [1, 2, 3]) ∧
    ((([1, 2, 3] : Bytes).take 4 ≠ StorageVector.ENVELOPE_MAGIC →
      c3Store.get repoRot recA = .error (.Encryption "missing or invalid envelope")) ∧
    (c3Store.get repoRot recA = .ok (some [0]) →
      ∃ kid kh, StorageVector.peek_key_id [1, 2, 3] = some kid ∧
        c3Kms.getFn kid = .ok kh ∧
        c3Enc.openFn kh [1, 2, 3] (StorageVector.build_aad repoRot kh.keyId recA) = .ok [0])) :=
  ⟨rfl, rfl, rfl,
    c3_get_fails_closed c3Enc c3Kms c3Store repoRot recA [1, 2, 3] [0] rfl rfl rfl⟩

/-- C4: under an encrypted configuration, records sealed under a previously
current key id remain decryptable after rotation: `get` looks up the key id
stored in the record's envelope rather than the current key. Writing
`"alpha"` under `k1`, rotating to `k2`, then writing `"beta"` leaves both
records readable with their original plaintexts (the encrypter is abstract;
the hypotheses state that its seal succeeded on the two writes, tags the
envelope with the sealing key id, and opens back to the plaintext under the
sealing handle — the AEAD round-trip contract of the external AES-GCM
crate). -/
theorem c4_rotated_keys_keep_old_records_readable
    (enc : StorageVector.Encrypter) (e1 e2 : Bytes)
    (hs1 : enc.sealFn kh1 alphaBytes (StorageVector.build_aad repoRot k1Bytes recA) = .ok e1)
    (hp1 : StorageVector.peek_key_id e1 = some k1Bytes)
    (ho1 : enc.openFn kh1 e1 (StorageVector.build_aad repoRot k1Bytes recA) = .ok alphaBytes)
    (hs2 : enc.sealFn kh2 betaBytes (StorageVector.build_aad repoRot k2Bytes recB) = .ok e2)
    (hp2 : StorageVector.peek_key_id e2 = some k2Bytes)
    (ho2 : enc.openFn kh2 e2 (StorageVector.build_aad repoRot k2Bytes recB) = .ok betaBytes) :
    ∃ r1 s1 r2 s2,
      StorageVector.VectorStore.upsert
        ⟨[], 1, some enc, some c4Kms0.toI⟩ repoRot recA alphaBytes = .ok (r1, s1) ∧
      StorageVector.VectorStore.upsert
        { s1 with kms := some c4Kms1.toI } repoRot recB betaBytes = .ok (r2, s2) ∧
      s2.get repoRot recA = .ok (some alphaBytes) ∧
      s2.get repoRot recB = .ok (some betaBytes) := by
  have hc0 : c4Kms0.toI.currentFn ⟨repoRot⟩ = .ok kh1 := rfl
  have hc1 : c4Kms1.toI.currentFn ⟨repoRot⟩ = .ok kh2 := rfl
  have hg1 : StorageVector.mapGet [((repoRot, recB), e2), ((repoRot, recA), e1)]
      (repoRot, recA) = some e1 := rfl
  have hg2 : StorageVector.mapGet [((repoRot, recB), e2), ((repoRot, recA), e1)]
      (repoRot, recB) = some e2 := rfl
  have hk1 : c4Kms1.toI.getFn k1Bytes = .ok kh1 := rfl
  have hk2 : c4Kms1.toI.getFn k2Bytes = .ok kh2 := rfl
  refine ⟨StorageVector.build_replay_entry 1 repoRot
      (StorageVector.checksum_placeholder alphaBytes)
      (StorageVector.checksum_placeholder alphaBytes) "emitted",
    ⟨[((repoRot, recA), e1)], 2, some enc, some c4Kms0.toI⟩,
    StorageVector.build_replay_entry 2 repoRot
      (StorageVector.checksum_placeholder betaBytes)
      (StorageVector.checksum_placeholder betaBytes) "emitted",
    ⟨[((repoRot, recB), e2), ((repoRot, recA), e1)], 3, some enc, some c4Kms1.toI⟩,
    ?_, ?_, ?_, ?_⟩
  · simp only [StorageVector.VectorStore.upsert, hc0]
    have hs1' : enc.sealFn kh1 alphaBytes (StorageVector.build_aad repoRot kh1.keyId recA)
        = .ok e1 := hs1
    simp only [hs1']
    rfl
  · simp only [StorageVector.VectorStore.upsert, hc1]
    have hs2' : enc.sealFn kh2 betaBytes (StorageVector.build_aad repoRot kh2.keyId recB)
        = .ok e2 := hs2
    simp only [hs2']
    rfl
  · have ho1' : enc.openFn kh1 e1 (StorageVector.build_aad repoRot kh1.keyId recA)
        = .ok alphaBytes := ho1
    simp only [StorageVector.VectorStore.get, hg1, hp1, hk1, ho1']
  · have ho2' : enc.openFn kh2 e2 (StorageVector.build_aad repoRot kh2.keyId recB)
        = .ok betaBytes := ho2
    simp only [StorageVector.VectorStore.get, hg2, hp2, hk2, ho2']

/-- C4 witness: a concrete envelope-shaped encrypter realizing the seal /
peek / open hypotheses at the scenario inputs. -/
theorem c4_rotated_keys_keep_old_records_readable_witness :
    (c4Enc.sealFn kh1 alphaBytes (StorageVector.build_aad repoRot k1Bytes recA) =
      .ok (StorageVector.encode_envelope k1Bytes (List.replicate 12 0) (List.replicate 16 0)
        alphaBytes)) ∧
    (StorageVector.peek_key_id (StorageVector.encode_envelope k1Bytes (List.replicate 12 0)
      (List.replicate 16 0) alphaBytes) = some k1Bytes) ∧
    (c4Enc.openFn kh1 (StorageVector.encode_envelope k1Bytes (List.replicate 12 0)
      (List.replicate 16 0) alphaBytes) (StorageVector.build_aad repoRot k1Bytes recA) =
      .ok alphaBytes) ∧
    (c4Enc.sealFn kh2 betaBytes (StorageVector.build_aad repoRot k2Bytes recB) =
      .ok (StorageVector.encode_envelope k2Bytes (List.replicate 12 0) (List.replicate 16 0)
        betaBytes)) ∧
    (StorageVector.peek_key_id (StorageVector.encode_envelope k2Bytes (List.replicate 12 0)
      (List.replicate 16 0) betaBytes) = some k2Bytes) ∧
    (c4Enc.openFn kh2 (StorageVector.encode_envelope k2Bytes (List.replicate 12 0)
      (List.replicate 16 0) betaBytes) (StorageVector.build_aad repoRot k2Bytes recB) =
      .ok betaBytes) ∧
    (∃ r1 s1 r2 s2,
      StorageVector.VectorStore.upsert
        ⟨[], 1, some c4Enc, some c4Kms0.toI⟩ repoRot recA alphaBytes = .ok (r1, s1) ∧
      StorageVector.VectorStore.upsert
        { s1 with kms := some c4Kms1.toI } repoRot recB betaBytes = .ok (r2, s2) ∧
      s2.get repoRot recA = .ok (some alphaBytes) ∧
      s2.get repoRot recB = .ok (some betaBytes)) :=
  ⟨by decide, by decide, by decide, by decide, by decide, by decide,
    c4_rotated_keys_keep_old_records_readable c4Enc
      (StorageVector.encode_envelope k1Bytes (List.replicate 12 0) (List.replicate 16 0)
        alphaBytes)
      (StorageVector.encode_envelope k2Bytes (List.replicate 12 0) (List.replicate 16 0)
        betaBytes)
      (by decide) (by decide) (by decide) (by decide) (by decide) (by decide)⟩

/-- What `encode` produces when the token verifies and the frame fits: the
header carries the (truncated) lengths, then payload, token, and the
checksum of everything before it. -/
theorem encode_eq {J : Type} (c : RuntimeTransportStdio.FramingCodec J) (p : J) (tok : Bytes)
    (env : RuntimeTransportStdio.TokenEnvelope)
    (hver : c.verify tok = .ok env)
    (hfit : 4 + 2 + (c.toVec p).length + tok.length + 16 ≤ c.maxFrameLength) :
    c.encode p tok =
      .ok ((u32be (c.toVec p).length ++ u16be tok.length ++ c.toVec p ++ tok) ++
        c.checksum (u32be (c.toVec p).length ++ u16be tok.length ++ c.toVec p ++ tok)) := by
  simp only [RuntimeTransportStdio.FramingCodec.encode, hver]
  rw [if_neg (by omega)]

/-- `decode` forwards a `decode_with_envelope` error unchanged. -/
theorem decode_error {J : Type} (c : RuntimeTransportStdio.FramingCodec J) (frame : Bytes)
    (e : RuntimeTransportStdio.TransportError)
    (h : c.decodeWithEnvelope frame = .error e) : c.decode frame = .error e := by
  unfold RuntimeTransportStdio.FramingCodec.decode
  rw [h]

/-- `decode` projects a successful `decode_with_envelope` to `(payload, raw_token)`. -/
theorem decode_ok {J : Type} (c : RuntimeTransportStdio.FramingCodec J) (frame : Bytes)
    (v : J) (env : RuntimeTransportStdio.TokenEnvelope)
    (h : c.decodeWithEnvelope frame = .ok (v, env)) : c.decode frame = .ok (v, env.rawToken) := by
  unfold RuntimeTransportStdio.FramingCodec.decode
  rw [h]

/-- C6 counterexample: a 65536-byte token (such tokens can verify: capability
lists are unbounded) makes `encode` succeed while writing `token_len as u16 =
0` into the header, so decoding the produced frame fails the length
arithmetic with `Framing("frame length mismatch")` instead of returning
`(p, t.token)`. -/
theorem c6_roundtrip_fails_for_oversized_token :
    ∃ frame, c6cx.encode () c6tok = .ok frame ∧
      c6cx.decode frame = .error (.Framing "frame length mismatch") := by
  have hver : c6cx.verify c6tok = .ok ⟨c6tok, "tid", "alice", ["stdio"], 9999⟩ := rfl
  have hpv : c6cx.toVec () = [] := rfl
  have hck : ∀ d : Bytes, c6cx.checksum d = List.replicate 16 0 := fun _ => rfl
  have hmaxv : c6cx.maxFrameLength = 70000 := rfl
  have htl : c6tok.length = 65536 := by simp only [c6tok, List.length_replicate]
  have hfit : 4 + 2 + (c6cx.toVec ()).length + c6tok.length + 16 ≤ c6cx.maxFrameLength := by
    rw [hpv, htl, hmaxv]; simp only [List.length_nil]; omega
  have hfl : (u32be 0 ++ (u16be 65536 ++ (c6tok ++ List.replicate 16 0))).length = 65558 := by
    simp only [List.length_append, List.length_replicate, htl]
    rfl
  have ht4 : (u32be 0 ++ (u16be 65536 ++ (c6tok ++ List.replicate 16 0))).take 4 = u32be 0 :=
    List.take_left' rfl
  have hd4 : (u32be 0 ++ (u16be 65536 ++ (c6tok ++ List.replicate 16 0))).drop 4 =
      u16be 65536 ++ (c6tok ++ List.replicate 16 0) :=
    List.drop_left' rfl
  have ht2 : (u16be 65536 ++ (c6tok ++ List.replicate 16 0)).take 2 = u16be 65536 :=
    List.take_left' rfl
  have hd2 : (u16be 65536 ++ (c6tok ++ List.replicate 16 0)).drop 2 =
      c6tok ++ List.replicate 16 0 :=
    List.drop_left' rfl
  have hf32 : fromBe32 (u32be 0) = 0 := rfl
  have hf16 : fromBe16 (u16be 65536) = 0 := rfl
  have hclen : (c6tok ++ List.replicate 16 0).length = 65552 := by
    simp only [List.length_append, List.length_replicate, htl]
  refine ⟨u32be 0 ++ (u16be 65536 ++ (c6tok ++ List.replicate 16 0)), ?_, ?_⟩
  · rw [encode_eq c6cx () c6tok ⟨c6tok, "tid", "alice", ["stdio"], 9999⟩ hver hfit]
    simp only [hpv, htl, hck, List.length_nil, List.append_nil, List.append_assoc]
  · refine decode_error c6cx _ _ ?_
    rw [RuntimeTransportStdio.FramingCodec.decodeWithEnvelope]
    rw [hfl, hmaxv]
    rw [if_neg (by omega), if_neg (by omega)]
    rw [ht4, hd4, hf32]
    simp only [ht2, hd2, hf16, hclen]
    rw [if_pos (by omega)]

/-- `u32be` always yields 4 bytes. -/
theorem u32be_length (n : Nat) : (u32be n).length = 4 := rfl

/-- `u16be` always yields 2 bytes. -/
theorem u16be_length (n : Nat) : (u16be n).length = 2 := rfl

/-- The big-endian u32 header round-trips exactly when the value fits. -/
theorem fromBe32_u32be (n : Nat) (h : n < 2 ^ 32) : fromBe32 (u32be n) = n := by
  simp [fromBe32, u32be]
  omega

/-- The big-endian u16 header round-trips exactly when the value fits. -/
theorem fromBe16_u16be (n : Nat) (h : n < 2 ^ 16) : fromBe16 (u16be n) = n := by
  simp [fromBe16, u16be]
  omega

/-- C6 (amended): `decode(encode(p, t)) = (p, t.token)` for every verifying
token and JSON payload, provided the serialized payload is shorter than 2^32
bytes and the token shorter than 2^16 bytes (the header casts `as u32` /
`as u16` truncate silently, so the unconditional claim fails; see the
counterexample). The signer and serde collaborators are abstract: the
hypotheses record that the token verifies to an envelope carrying it as
`raw_token`, that `from_slice` inverts `to_vec` on the payload, and that the
checksum is 16 bytes wide. -/
theorem c6_decode_encode_roundtrip {J : Type}
    (c : RuntimeTransportStdio.FramingCodec J) (p : J) (tok : Bytes)
    (env : RuntimeTransportStdio.TokenEnvelope) (frame : Bytes)
    (hplen : (c.toVec p).length < 2 ^ 32)
    (htlen : tok.length < 2 ^ 16)
    (hutf : validUtf8 tok = true)
    (hver : c.verify tok = .ok env)
    (hraw : env.rawToken = tok)
    (hjson : c.fromSlice (c.toVec p) = .ok p)
    (hck : ∀ d, (c.checksum d).length = 16)
    (henc : c.encode p tok = .ok frame) :
    c.decode frame = .ok (p, tok) := by
  by_cases hfit : 4 + 2 + (c.toVec p).length + tok.length + 16 ≤ c.maxFrameLength
  case neg =>
    simp only [RuntimeTransportStdio.FramingCodec.encode, hver] at henc
    rw [if_pos (by omega)] at henc
    exact absurd henc (by simp)
  case pos =>
  have hbuf := encode_eq c p tok env hver hfit
  rw [henc] at hbuf
  have hframe : frame =
      (u32be (c.toVec p).length ++ u16be tok.length ++ c.toVec p ++ tok) ++
        c.checksum (u32be (c.toVec p).length ++ u16be tok.length ++ c.toVec p ++ tok) :=
    Except.ok.inj hbuf
  have hckl := hck (u32be (c.toVec p).length ++ u16be tok.length ++ c.toVec p ++ tok)
  have hbuflen : (u32be (c.toVec p).length ++ u16be tok.length ++ c.toVec p ++ tok).length =
      4 + 2 + (c.toVec p).length + tok.length := by
    simp only [List.length_append, u32be_length, u16be_length]
  have hflen : frame.length = 4 + 2 + (c.toVec p).length + tok.length + 16 := by
    rw [hframe, List.length_append, hbuflen, hckl]
  have hassoc : frame = u32be (c.toVec p).length ++ (u16be tok.length ++ (c.toVec p ++ (tok ++
      c.checksum (u32be (c.toVec p).length ++ u16be tok.length ++ c.toVec p ++ tok)))) := by
    rw [hframe]; simp [List.append_assoc]
  have ht4 : frame.take 4 = u32be (c.toVec p).length := by
    rw [hassoc]; exact List.take_left' (u32be_length _)
  have hd4 : frame.drop 4 = u16be tok.length ++ (c.toVec p ++ (tok ++
      c.checksum (u32be (c.toVec p).length ++ u16be tok.length ++ c.toVec p ++ tok))) := by
    rw [hassoc]; exact List.drop_left' (u32be_length _)
  have ht2 : (frame.drop 4).take 2 = u16be tok.length := by
    rw [hd4]; exact List.take_left' (u16be_length _)
  have hd2 : (frame.drop 4).drop 2 = c.toVec p ++ (tok ++
      c.checksum (u32be (c.toVec p).length ++ u16be tok.length ++ c.toVec p ++ tok)) := by
    rw [hd4]; exact List.drop_left' (u16be_length _)
  have hculen : (c.toVec p ++ (tok ++
      c.checksum (u32be (c.toVec p).length ++ u16be tok.length ++ c.toVec p ++ tok))).length =
      (c.toVec p).length + tok.length + 16 := by
    simp only [List.length_append, hckl]
    omega
  have htp : (c.toVec p ++ (tok ++
      c.checksum (u32be (c.toVec p).length ++ u16be tok.length ++ c.toVec p ++ tok))).take
      (c.toVec p).length = c.toVec p := List.take_left' rfl
  have hdp : (c.toVec p ++ (tok ++
      c.checksum (u32be (c.toVec p).length ++ u16be tok.length ++ c.toVec p ++ tok))).drop
      (c.toVec p).length = tok ++
      c.checksum (u32be (c.toVec p).length ++ u16be tok.length ++ c.toVec p ++ tok) :=
    List.drop_left' rfl
  have htt : (tok ++ c.checksum (u32be (c.toVec p).length ++ u16be tok.length ++ c.toVec p ++
      tok)).take tok.length = tok := List.take_left' rfl
  have hdt : (tok ++ c.checksum (u32be (c.toVec p).length ++ u16be tok.length ++ c.toVec p ++
      tok)).drop tok.length =
      c.checksum (u32be (c.toVec p).length ++ u16be tok.length ++ c.toVec p ++ tok) :=
    List.drop_left' rfl
  have htck : frame.take (4 + 2 + (c.toVec p).length + tok.length + 16 - 16) =
      u32be (c.toVec p).length ++ u16be tok.length ++ c.toVec p ++ tok := by
    rw [hframe]
    exact List.take_left' (by rw [hbuflen]; omega)
  have hdwe : c.decodeWithEnvelope frame = .ok (p, env) := by
    rw [RuntimeTransportStdio.FramingCodec.decodeWithEnvelope]
    rw [hflen]
    rw [if_neg (by omega), if_neg (by omega)]
    rw [ht4, fromBe32_u32be _ hplen]
    simp only [ht2, hd2, fromBe16_u16be _ htlen]
    rw [if_neg (by rw [hculen]; omega)]
    rw [htp, hdp, htt, hdt, htck]
    rw [if_neg (by simp)]
    simp only [hjson, hutf, hver, eq_self_iff_true, if_true]
  exact (decode_ok c frame p env hdwe).trans (by rw [hraw])

/-- C6 witness: a concrete codec round-trips a small payload and token. -/
theorem c6_decode_encode_roundtrip_witness :
    ((c6wit.toVec 49).length < 2 ^ 32) ∧
    (([97, 98] : Bytes).length < 2 ^ 16) ∧
    (validUtf8 [97, 98] = true) ∧
    (c6wit.verify [97, 98] = .ok c6witEnv) ∧
    (c6witEnv.rawToken = [97, 98]) ∧
    (c6wit.fromSlice (c6wit.toVec 49) = .ok 49) ∧
    (∀ d, (c6wit.checksum d).length = 16) ∧
    (c6wit.encode 49 [97, 98] = .ok c6witFrame) ∧
    c6wit.decode c6witFrame = .ok (49, [97, 98]) :=
  ⟨by decide, by decide, by decide, rfl, rfl, rfl, fun _ => by simp [c6wit], by decide,
    c6_decode_encode_roundtrip c6wit 49 [97, 98] c6witEnv c6witFrame
      (by decide) (by decide) (by decide) rfl rfl rfl (fun _ => by simp [c6wit]) (by decide)⟩

/-- An occurrence of `u` inside `a ++ b` avoiding all characters of `a` lies
inside `b`. -/
theorem infix_append_right_of_disjoint :
    ∀ (a : List Char) (b u : List Char), u ≠ [] → (∀ ch ∈ u, ch ∉ a) →
      u <:+: a ++ b → u <:+: b
  | [], _, _, _, _, h => by simpa using h
  | x :: a, b, u, hu, hchars, h => by
    rcases List.infix_cons_iff.mp h with hpre | hinf
    · cases u with
      | nil => exact absurd rfl hu
      | cons uh ut =>
        have hm : uh ∈ x :: a := by
          rw [(List.cons_prefix_cons.mp hpre).1]
          exact List.mem_cons_self x a
        exact absurd hm (hchars uh (List.mem_cons_self uh ut))
    · exact infix_append_right_of_disjoint a b u hu
        (fun ch hch hmem => hchars ch hch (List.mem_cons_of_mem x hmem)) hinf

/-- A prefix of `replaceAllLit p r s` that avoids the characters of `r` is a
prefix of `s`. -/
theorem prefix_of_replaceAllLit (p r : List Char) (hr : r ≠ []) :
    ∀ (n : Nat) (s u : List Char), s.length ≤ n → (∀ ch ∈ u, ch ∉ r) →
      u <+: IngestionSanitization.replaceAllLit p r s → u <+: s := by
  intro n
  induction n with
  | zero =>
    intro s u hlen hchars hpre
    have hs : s = [] := List.length_eq_zero.mp (Nat.le_zero.mp hlen)
    subst hs
    simpa [IngestionSanitization.replaceAllLit] using hpre
  | succ n ih =>
    intro s u hlen hchars hpre
    cases s with
    | nil => simpa [IngestionSanitization.replaceAllLit] using hpre
    | cons c t =>
      simp only [IngestionSanitization.replaceAllLit] at hpre
      split at hpre
      case isTrue h =>
        cases u with
        | nil => exact List.nil_prefix
        | cons uh ut =>
          obtain ⟨w, hw⟩ := hpre
          cases r with
          | nil => exact absurd rfl hr
          | cons rh rt =>
            have huh : uh = rh := by simpa using congrArg (fun l => l.headI) hw
            exact absurd (List.mem_cons_self rh rt)
              (huh ▸ hchars uh (List.mem_cons_self uh ut))
      case isFalse h =>
        cases u with
        | nil => exact List.nil_prefix
        | cons uh ut =>
          obtain ⟨huc, hut⟩ := List.cons_prefix_cons.mp hpre
          have := ih t ut (by simp only [List.length_cons] at hlen; omega)
            (fun ch hch => hchars ch (List.mem_cons_of_mem uh hch)) hut
          exact List.cons_prefix_cons.mpr ⟨huc, this⟩

/-- An occurrence of `u` inside `replaceAllLit p r s` that avoids the
characters of `r` is an occurrence inside `s`. -/
theorem infix_of_replaceAllLit (p r : List Char) (hr : r ≠ []) :
    ∀ (n : Nat) (s u : List Char), s.length ≤ n → u ≠ [] → (∀ ch ∈ u, ch ∉ r) →
      u <:+: IngestionSanitization.replaceAllLit p r s → u <:+: s := by
  intro n
  induction n with
  | zero =>
    intro s u hlen hu hchars hinf
    have hs : s = [] := List.length_eq_zero.mp (Nat.le_zero.mp hlen)
    subst hs
    simp [IngestionSanitization.replaceAllLit] at hinf
    exact absurd hinf hu
  | succ n ih =>
    intro s u hlen hu hchars hinf
    cases s with
    | nil =>
      simp [IngestionSanitization.replaceAllLit] at hinf
      exact absurd hinf hu
    | cons c t =>
      simp only [IngestionSanitization.replaceAllLit] at hinf
      split at hinf
      case isTrue h =>
        have h2 := infix_append_right_of_disjoint r _ u hu hchars hinf
        have hp : 0 < p.length := List.length_pos.mpr h.1
        have hlen2 : (List.drop p.length (c :: t)).length ≤ n := by
          rw [List.length_drop]
          simp only [List.length_cons] at hlen ⊢
          omega
        exact (ih _ u hlen2 hu hchars h2).trans (List.drop_suffix _ _).isInfix
      case isFalse h =>
        rcases List.infix_cons_iff.mp hinf with hpre | hinf2
        · cases u with
          | nil => exact absurd rfl hu
          | cons uh ut =>
            obtain ⟨huc, hut⟩ := List.cons_prefix_cons.mp hpre
            have hut' := prefix_of_replaceAllLit p r hr n t ut
              (by simp only [List.length_cons] at hlen; omega)
              (fun ch hch => hchars ch (List.mem_cons_of_mem uh hch)) hut
            exact (List.cons_prefix_cons.mpr ⟨huc, hut'⟩).isInfix
        · exact List.infix_cons (ih t u
            (by simp only [List.length_cons] at hlen; omega) hu hchars hinf2)

/-- After `replaceAllLit p r s`, the pattern `p` no longer occurs (for a
nonempty literal pattern sharing no character with `r`). -/
theorem not_infix_replaceAllLit (p r : List Char) (hr : r ≠ []) (hp : p ≠ [])
    (hdisj : ∀ ch ∈ p, ch ∉ r) :
    ∀ (n : Nat) (s : List Char), s.length ≤ n →
      ¬ p <:+: IngestionSanitization.replaceAllLit p r s := by
  intro n
  induction n with
  | zero =>
    intro s hlen hinf
    have hs : s = [] := List.length_eq_zero.mp (Nat.le_zero.mp hlen)
    subst hs
    simp [IngestionSanitization.replaceAllLit] at hinf
    exact absurd hinf hp
  | succ n ih =>
    intro s hlen hinf
    cases s with
    | nil =>
      simp [IngestionSanitization.replaceAllLit] at hinf
      exact absurd hinf hp
    | cons c t =>
      simp only [IngestionSanitization.replaceAllLit] at hinf
      split at hinf
      case isTrue h =>
        have h2 := infix_append_right_of_disjoint r _ p hp hdisj hinf
        have hplen : 0 < p.length := List.length_pos.mpr h.1
        have hlen2 : (List.drop p.length (c :: t)).length ≤ n := by
          rw [List.length_drop]
          simp only [List.length_cons] at hlen ⊢
          omega
        exact ih _ hlen2 h2
      case isFalse h =>
        have hnotpre : ¬ p.isPrefixOf (c :: t) = true := fun hip => h ⟨hp, hip⟩
        rcases List.infix_cons_iff.mp hinf with hpre | hinf2
        · cases p with
          | nil => exact absurd rfl hp
          | cons ph pt =>
            obtain ⟨hpc, hpt⟩ := List.cons_prefix_cons.mp hpre
            have hpt' := prefix_of_replaceAllLit (ph :: pt) r hr n t pt
              (by simp only [List.length_cons] at hlen; omega)
              (fun ch hch => hdisj ch (List.mem_cons_of_mem ph hch)) hpt
            exact hnotpre (List.isPrefixOf_iff_prefix.mpr
              (List.cons_prefix_cons.mpr ⟨hpc, hpt'⟩))
        · exact ih t (by simp only [List.length_cons] at hlen; omega) hinf2

/-- If `find_iter` finds no match of a nonempty literal pattern, the pattern
does not occur in the text. -/
theorem not_infix_of_findIterLit_nil (p : List Char) (hp : p ≠ []) :
    ∀ (n : Nat) (s : List Char), s.length ≤ n →
      IngestionSanitization.findIterLit p s = [] → ¬ p <:+: s := by
  intro n
  induction n with
  | zero =>
    intro s hlen _ hinf
    have hs : s = [] := List.length_eq_zero.mp (Nat.le_zero.mp hlen)
    subst hs
    exact absurd (List.eq_nil_of_infix_nil hinf) hp
  | succ n ih =>
    intro s hlen hfind hinf
    cases s with
    | nil => exact absurd (List.eq_nil_of_infix_nil hinf) hp
    | cons c t =>
      simp only [IngestionSanitization.findIterLit] at hfind
      split at hfind
      case isTrue h => exact List.cons_ne_nil p _ hfind
      case isFalse h =>
        have hnotpre : ¬ p.isPrefixOf (c :: t) = true := fun hip => h ⟨hp, hip⟩
        rcases List.infix_cons_iff.mp hinf with hpre | hinf2
        · exact hnotpre (List.isPrefixOf_iff_prefix.mpr hpre)
        · exact ih t (by simp only [List.length_cons] at hlen; omega) hfind hinf2

/-- A pattern absent from the text stays absent through the remaining
sanitizer passes (its characters being disjoint from `[REDACTED]`). -/
theorem applyPatterns_preserves_not_infix (digest : List (List Char) → String) :
    ∀ (ps : List (List Char)) (text : List Char) (log : List String) (p : List Char),
      p ≠ [] → (∀ ch ∈ p, ch ∉ IngestionSanitization.REDACTED) → ¬ p <:+: text →
      ¬ p <:+: (IngestionSanitization.applyPatterns digest ps text log).1
  | [], text, log, p => by
    intro _ _ hnot
    simpa [IngestionSanitization.applyPatterns] using hnot
  | q :: ps, text, log, p => by
    intro hp hchars hnot
    simp only [IngestionSanitization.applyPatterns]
    split
    · exact applyPatterns_preserves_not_infix digest ps text log p hp hchars hnot
    · refine applyPatterns_preserves_not_infix digest ps _ _ p hp hchars ?_
      intro hinf
      exact hnot (infix_of_replaceAllLit q IngestionSanitization.REDACTED (by decide)
        text.length text p le_rfl hp hchars hinf)

/-- After the full pattern loop, no declared pattern occurs in the scrubbed
text (nonempty literal patterns, characters disjoint from `[REDACTED]`). -/
theorem applyPatterns_no_infix (digest : List (List Char) → String) :
    ∀ (ps : List (List Char)) (text : List Char) (log : List String),
      (∀ q ∈ ps, q ≠ []) →
      (∀ q ∈ ps, ∀ ch ∈ q, ch ∉ IngestionSanitization.REDACTED) →
      ∀ p ∈ ps, ¬ p <:+: (IngestionSanitization.applyPatterns digest ps text log).1
  | [], _, _ => by intro _ _ p hp; simp at hp
  | q :: ps, text, log => by
    intro hne hdisj p hp
    have hq : q ≠ [] := hne q (List.mem_cons_self q ps)
    have hqd : ∀ ch ∈ q, ch ∉ IngestionSanitization.REDACTED :=
      hdisj q (List.mem_cons_self q ps)
    rcases List.mem_cons.mp hp with rfl | hmem
    · simp only [IngestionSanitization.applyPatterns]
      split
      case isTrue hempty =>
        have hfind : IngestionSanitization.findIterLit p text = [] :=
          List.isEmpty_iff.mp hempty
        exact applyPatterns_preserves_not_infix digest ps text log p hq hqd
          (not_infix_of_findIterLit_nil p hq text.length text le_rfl hfind)
      case isFalse hempty =>
        exact applyPatterns_preserves_not_infix digest ps _ _ p hq hqd
          (not_infix_replaceAllLit p IngestionSanitization.REDACTED (by decide) hq hqd
            text.length text le_rfl)
    · simp only [IngestionSanitization.applyPatterns]
      have hne' : ∀ x ∈ ps, x ≠ [] := fun x hx => hne x (List.mem_cons_of_mem q hx)
      have hdisj' : ∀ x ∈ ps, ∀ ch ∈ x, ch ∉ IngestionSanitization.REDACTED :=
        fun x hx => hdisj x (List.mem_cons_of_mem q hx)
      split
      · exact applyPatterns_no_infix digest ps text log hne' hdisj' p hmem
      · exact applyPatterns_no_infix digest ps _ _ hne' hdisj' p hmem

/-- C8 (amended): for sanitizer configurations whose redaction patterns are
nonempty literal strings sharing no character with the replacement literal
`[REDACTED]`, the scrubbed payload contains no substring equal to any
declared pattern. (The unrestricted claim over all valid regex patterns is
false: the replacement text itself can match a pattern — see the
counterexample.) -/
theorem c8_scrubbed_payload_free_of_disjoint_literal_patterns
    (digest : List (List Char) → String) (config : IngestionSanitization.SanitizationConfig)
    (chunk : IngestionSanitization.PlannedChunk) (p : List Char)
    (hp : p ∈ config.redactPatterns)
    (hne : ∀ q ∈ config.redactPatterns, q ≠ [])
    (hdisj : ∀ q ∈ config.redactPatterns, ∀ ch ∈ q, ch ∉ IngestionSanitization.REDACTED) :
    ¬ p <:+: (IngestionSanitization.sanitizerApply digest config chunk).scrubbedPayload := by
  have h := applyPatterns_no_infix digest config.redactPatterns chunk.payload []
    hne hdisj p hp
  simpa [IngestionSanitization.sanitizerApply] using h

/-- C8 witness: literal pattern `"xyz"` on input `"axyzb"`. -/
theorem c8_scrubbed_payload_free_of_disjoint_literal_patterns_witness :
    (['x', 'y', 'z'] ∈ c8witConfig.redactPatterns) ∧
    (∀ q ∈ c8witConfig.redactPatterns, q ≠ []) ∧
    (∀ q ∈ c8witConfig.redactPatterns, ∀ ch ∈ q, ch ∉ IngestionSanitization.REDACTED) ∧
    ¬ ['x', 'y', 'z'] <:+:
      (IngestionSanitization.sanitizerApply (fun _ => "deadbeef") c8witConfig
        c8witChunk).scrubbedPayload :=
  ⟨by decide, by decide, by decide,
    c8_scrubbed_payload_free_of_disjoint_literal_patterns (fun _ => "deadbeef") c8witConfig
      c8witChunk ['x', 'y', 'z'] (by decide) (by decide) (by decide)⟩
